import Mathlib

/-!
Verification development for the storyline generation engine of docu-maker
(`src/app/src/lib/storylineGenerator.ts`).

Modeling conventions for the shallow embedding:
* JavaScript numbers are embedded as exact rationals `ℚ`.  All score constants
  (2.4, 1.35, …) are exactly representable decimals, and the engine only adds,
  subtracts, multiplies and compares scores, so the rational model is the
  idealized real-number semantics of the code.
* `new Date(s).getTime()` is modeled by `parseDate`, a proleptic-Gregorian
  parser for the ISO `YYYY-MM-DD` date-only strings used by the repository;
  any other string parses to `none`, which models the `NaN` timestamp of an
  invalid JS date (every numeric comparison against `NaN` is false, which is
  what the `Option` comparisons below implement).
* `Map`/`Set` objects are embedded as association lists / lists; `Map.set` is
  modeled by prepending (lookup-equivalent to JS `Map.set`, which overwrites).
* `Math.log` is transcendental, so the tag-weight value is supplied as a
  parameter `wf : Nat → Nat → ℚ` to the executable pipeline; the actual
  weight used by the source, `ln((N+1)/(df+1)) + 1` rounded to 3 decimals,
  is defined separately over `ℝ` as `idfWeight` and analyzed there.  The
  weight table is only ever read back through `lookupWeight` inside
  `computeThemeScore`, so every structural property proved for all `wf`
  holds in particular for the real engine.
-/

namespace DocuMaker

/-- JS `Math.round`: round half toward positive infinity. -/
def jsRound (q : ℚ) : ℤ := Rat.floor (q + 1/2)

/-! ### String primitives

The JS string operations are modeled structurally over the character data so they
evaluate inside the kernel.  They coincide with the JS behavior on the ASCII
strings this engine manipulates. -/

/-- `s.toLowerCase()` (ASCII). -/
def jsToLower (s : String) : String := String.mk (s.data.map Char.toLower)

/-- `s.trim()`. -/
def jsTrim (s : String) : String :=
  String.mk (((s.data.dropWhile Char.isWhitespace).reverse.dropWhile Char.isWhitespace).reverse)

/-- `array.join(sep)`. -/
def jsJoin (sep : String) : List String → String
  | [] => ""
  | [x] => x
  | x :: xs => x ++ sep ++ jsJoin sep xs

/-- Parse a run of decimal digits (used by the date parser). -/
def digitsToNat? (l : List Char) : Option Nat :=
  if l ≠ [] ∧ l.all Char.isDigit then
    some (l.foldl (fun acc c => 10 * acc + (c.toNat - 48)) 0)
  else none

/-- Split a character list on a separator character. -/
def splitOnChar (sep : Char) : List Char → List (List Char)
  | [] => [[]]
  | c :: rest =>
    let parts := splitOnChar sep rest
    if c == sep then [] :: parts
    else
      match parts with
      | [] => [[c]]
      | p :: ps => (c :: p) :: ps

/-! ### Dates (model of `new Date(string).getTime()` for ISO dates) -/

def isLeapYear (y : Nat) : Bool := (y % 4 == 0 && y % 100 != 0) || y % 400 == 0

def daysInMonth (y m : Nat) : Nat :=
  if m = 2 then (if isLeapYear y then 29 else 28)
  else if m = 4 ∨ m = 6 ∨ m = 9 ∨ m = 11 then 30
  else 31

def daysBeforeMonth (y m : Nat) : Nat :=
  (List.range (m - 1)).foldl (fun acc i => acc + daysInMonth y (i + 1)) 0

/-- Rata die day number (1 = 0001-01-01, proleptic Gregorian). -/
def rataDie (y m d : Nat) : Nat :=
  365 * (y - 1) + (y - 1) / 4 + (y - 1) / 400 + daysBeforeMonth y m + d - (y - 1) / 100

/-- Models `new Date(s).getTime()` for the ISO `YYYY-MM-DD` date-only strings used in
this repository (UTC midnight, milliseconds since the 1970 epoch).  Anything else is
an invalid date: `none` plays the role of the `NaN` timestamp. -/
def parseDate (s : String) : Option Int :=
  match splitOnChar '-' s.data with
  | [ys, ms, ds] =>
    if ys.length = 4 ∧ ms.length = 2 ∧ ds.length = 2 then
      match digitsToNat? ys, digitsToNat? ms, digitsToNat? ds with
      | some y, some m, some d =>
        if 1 ≤ y ∧ 1 ≤ m ∧ m ≤ 12 ∧ 1 ≤ d ∧ d ≤ daysInMonth y m then
          some (((rataDie y m d : Int) - (rataDie 1970 1 1 : Int)) * 86400000)
        else none
      | _, _, _ => none
    else none
  | _ => none

/-- `candidate._timestamp >= prev._timestamp` with NaN semantics: false if either side
is an invalid date. -/
def tsGe : Option Int → Option Int → Bool
  | some a, some b => a ≥ b
  | _, _ => false

/-- `candidate._timestamp < prev._timestamp` with NaN semantics. -/
def tsLt : Option Int → Option Int → Bool
  | some a, some b => a < b
  | _, _ => false

/-! ### Association lists (model of JS `Map` restricted to get/set) -/

/-- `map.get(k)` (JS `Map.get`, `undefined` ↦ `none`). -/
def alGet {α : Type} (k : String) (m : List (String × α)) : Option α :=
  (m.find? (fun p => p.1 == k)).map (fun p => p.2)

/-- `map.set(k, v)`: prepending is lookup-equivalent to JS `Map.set` overwriting. -/
def alSet {α : Type} (k : String) (v : α) (m : List (String × α)) : List (String × α) :=
  (k, v) :: m

/-- `usage.get(id) || 0` (`0` is falsy in JS, so `some 0` and `none` both yield `0`). -/
def usageGet (k : String) (m : List (String × Nat)) : Nat :=
  match alGet k m with
  | some n => n
  | none => 0

/-! ### Text scanning (model of the keyword regexes) -/

/-- JS regex `\w`: `[A-Za-z0-9_]`. -/
def isWordChar (c : Char) : Bool := c.isAlphanum || c == '_'

/-- `text.includes(needle)` on character lists. -/
def containsSub (needle : List Char) : List Char → Bool
  | [] => needle.isEmpty
  | c :: rest => needle.isPrefixOf (c :: rest) || containsSub needle rest

/-- One left-to-right scan counting the non-overlapping matches of
`new RegExp("\\b" + kw + "\\b", "g")`: a match needs a word/non-word boundary on both
sides (`\b` holds where exactly one side is a `\w` character).  `prevW` is the
wordness of the character before the scan position, `firstW` and `lastW` the wordness
of the first and last keyword character.  After a match the regex engine continues at
the match's end; `skip` counts the characters of the current match still to be
consumed, so the recursion stays structural on the text. -/
def countWordAux (kw : List Char) (firstW lastW : Bool) : Bool → Nat → List Char → Nat
  | _, _, [] => 0
  | _, skip + 1, c :: rest => countWordAux kw firstW lastW (isWordChar c) skip rest
  | prevW, 0, c :: rest =>
    let s := c :: rest
    let afterW : Bool :=
      match s.drop kw.length with
      | [] => false
      | d :: _ => isWordChar d
    if kw ≠ [] ∧ kw.isPrefixOf s ∧ prevW ≠ firstW ∧ afterW ≠ lastW then
      1 + countWordAux kw firstW lastW (isWordChar c) (kw.length - 1) rest
    else
      countWordAux kw firstW lastW (isWordChar c) 0 rest

/-- Whole-word occurrence count of `kw` in `text` (the single-word regex branch). -/
def countWord (text kw : List Char) : Nat :=
  match kw with
  | [] => 0
  | c :: cs => countWordAux kw (isWordChar c) (isWordChar ((c :: cs).getLastD c)) false 0 text

/-- `countMatches` from the source: per keyword, multi-word keywords count 1 if the
text includes them as a substring; single-word keywords count whole-word regex
matches capped at 3. -/
def countMatches (text : String) (keywords : List String) : Nat :=
  keywords.foldl
    (fun count keyword =>
      let normalized := jsToLower (jsTrim keyword)
      if normalized = "" then count
      else if normalized.toList.contains ' ' then
        count + (if containsSub normalized.toList text.toList then 1 else 0)
      else
        count + min 3 (countWord text.toList normalized.toList))
    0

/-! ### Data model (from `src/app/src/types/index.ts`) -/

inductive MediaType where
  | image | video | audio
  deriving Repr, DecidableEq

structure Media where
  id : String
  type : MediaType
  url : String
  caption : Option String
  deriving Repr, DecidableEq

structure Anecdote where
  id : String
  date : String
  year : Int
  title : String
  story : String
  storyteller : String
  location : String
  notes : String
  media : List Media
  tags : List String
  createdAt : Int
  updatedAt : Int
  deriving Repr, DecidableEq

/-- `AnecdoteMeta = Anecdote & {_timestamp, _text, _tags}`; the JS object is flattened
into one structure.  `tsMs`, `textLower`, `tagsLower` model `_timestamp`, `_text`,
`_tags`. -/
structure AnecdoteMeta where
  id : String
  date : String
  year : Int
  title : String
  story : String
  storyteller : String
  location : String
  notes : String
  media : List Media
  tags : List String
  createdAt : Int
  updatedAt : Int
  tsMs : Option Int
  textLower : String
  tagsLower : List String
  deriving Repr, DecidableEq

inductive StorylineStyle where
  | fiftyCent   -- '50cent'
  | jesse
  | coogler
  | hybrid
  deriving Repr, DecidableEq

inductive RecipeMode where
  | chronological | tag | impact | community
  deriving Repr, DecidableEq

structure StorylineRecipe where
  id : String
  title : String
  description : String
  style : StorylineStyle
  mode : RecipeMode
  focusTags : List String
  focusKeywords : List String
  deriving Repr, DecidableEq

structure ThemeScore where
  total : ℚ
  tagScore : ℚ
  keywordScore : ℚ
  impactScore : ℚ
  deriving Repr, DecidableEq

structure StorylineScoreBreakdown where
  total : ℚ
  sharedTagScore : ℚ
  storytellerScore : ℚ
  locationScore : ℚ
  chronologyScore : ℚ
  recencyScore : ℚ
  themeScore : ℚ
  usagePenalty : ℚ
  modePenalty : ℚ
  storytellerStreak : Nat
  sharedTags : List String
  previousAnecdoteId : String
  candidateAnecdoteId : String
  deriving Repr, DecidableEq

inductive ConnectionType where
  | tag | storyteller | location | chronology
  deriving Repr, DecidableEq

structure StorylineConnection where
  type : ConnectionType
  label : String
  deriving Repr, DecidableEq

structure StorylineBeat where
  id : String
  anecdote : AnecdoteMeta
  summary : String
  voiceover : String
  connection : Option StorylineConnection
  intensity : Nat
  debug : Option StorylineScoreBreakdown
  deriving Repr, DecidableEq

structure Storyline where
  id : String
  title : String
  description : String
  style : StorylineStyle
  tone : String
  openingLine : String
  closingLine : String
  beats : List StorylineBeat
  tags : List String
  timeframeStart : String
  timeframeEnd : String
  timeframeYears : List Int
  deriving Repr, DecidableEq

/-! ### Constants -/

def NIGHTLIFE_TAGS : List String :=
  ["dj", "dance", "club", "night", "party", "show", "venue", "live"]

def NIGHTLIFE_KEYWORDS : List String :=
  ["dj", "dance", "club", "night", "party", "show", "stage", "crowd", "set",
   "bass", "dancefloor", "venue", "afterparty"]

def IMPACT_KEYWORDS : List String :=
  ["first", "sold out", "breakthrough", "headline", "festival", "tour", "radio",
   "award", "viral", "mainstream", "debut", "record", "packed", "historic"]

def COMMUNITY_KEYWORDS : List String :=
  ["community", "diaspora", "collective", "organizer", "student", "campus",
   "family", "roots", "culture", "heritage", "immigrant", "neighbors"]

def STYLE_TONE : StorylineStyle → String
  | .fiftyCent => "Gritty, first-person energy with swagger"
  | .jesse => "Measured, human-centered reporting with reflective edges (Jesse Washington cut)"
  | .coogler => "Cinematic, character-driven with emotional build and hope"
  | .hybrid => "Cinematic with journalistic edge"

def YEAR_MS : Int := 1000 * 60 * 60 * 24 * 365

def sharedTagW : ℚ := 2.4
def storytellerBaseW : ℚ := 3
def storytellerMinW : ℚ := 0.8
def storytellerDecayW : ℚ := 1.35
def storytellerVarietyBonusW : ℚ := 1.2
def locationW : ℚ := 1.75
def chronologicalForwardW : ℚ := 2.4
def timeWithinYearW : ℚ := 1.25
def timeWithin3YearsW : ℚ := 0.4
def usagePenaltyW : ℚ := 1.1
def chronologicalBacktrackPenaltyW : ℚ := 4.5
def themeTagWeightW : ℚ := 2.9
def themeKeywordWeightW : ℚ := 1.6
def impactModeMultiplierW : ℚ := 1.2
def startImpactBoostW : ℚ := 0.5
def startUsagePenaltyW : ℚ := 1.4

/-! ### Normalizer -/

def buildText (a : Anecdote) : String :=
  jsToLower (a.title ++ " " ++ a.story ++ " " ++ a.notes ++ " " ++ a.location ++ " "
    ++ a.storyteller ++ " " ++ jsJoin " " a.tags)

def toMetaOne (a : Anecdote) : AnecdoteMeta :=
  { id := a.id, date := a.date, year := a.year, title := a.title, story := a.story
  , storyteller := a.storyteller, location := a.location, notes := a.notes
  , media := a.media, tags := a.tags, createdAt := a.createdAt, updatedAt := a.updatedAt
  , tsMs := parseDate a.date
  , textLower := buildText a
  , tagsLower := a.tags.map jsToLower }

def toMeta (anecdotes : List Anecdote) : List AnecdoteMeta :=
  anecdotes.map toMetaOne

/-! ### Scoring helpers -/

def countTagMatches (tags focus : List String) : Nat :=
  if focus.isEmpty then 0
  else focus.foldl (fun count tag => if tags.contains tag then count + 1 else count) 0

def sharedTags (a b : AnecdoteMeta) : List String :=
  a.tagsLower.filter (fun tag => b.tagsLower.contains tag)

def computeImpactScore (a : AnecdoteMeta) : Nat :=
  countMatches a.textLower IMPACT_KEYWORDS
    + (if a.tagsLower.contains "milestone" then 2 else 0)
    + (if a.tagsLower.contains "concert" then 2 else 0)
    + (if a.tagsLower.contains "festival" then 2 else 0)
    + (if containsSub "sold out".toList a.textLower.toList then 2 else 0)

/-- First-occurrence deduplication: the iteration order of a JS `Set` built from an
array. -/
def dedupFirstAux {α : Type} [DecidableEq α] (seen : List α) : List α → List α
  | [] => []
  | x :: xs => if x ∈ seen then dedupFirstAux seen xs else x :: dedupFirstAux (x :: seen) xs

def dedupFirst {α : Type} [DecidableEq α] (l : List α) : List α := dedupFirstAux [] l

/-- Increment a key's count in an insertion-ordered count list (JS object/`Map`
update: an existing key keeps its position, a new key is appended). -/
def bumpCount (t : String) : List (String × Nat) → List (String × Nat)
  | [] => [(t, 1)]
  | (k, v) :: rest => if k = t then (k, v + 1) :: rest else (k, v) :: bumpCount t rest

/-- `computeTagWeights` with the weight value `Number((Math.log((N+1)/(df+1))+1).toFixed(3))`
abstracted into `wf totalDocs docCount` (see `idfWeight` for the real-valued weight). -/
def computeTagWeights {α : Type} (wf : Nat → Nat → α) (items : List AnecdoteMeta) :
    List (String × α) :=
  let totalDocs := max 1 items.length
  let tagDocs := items.foldl
    (fun acc item => (dedupFirst item.tagsLower).foldl (fun a tag => bumpCount tag a) acc) []
  tagDocs.map (fun p => (p.1, wf totalDocs p.2))

/-- `tagWeights.get(tag) || 1`: a missing tag — or a (never occurring) stored weight
of `0`, which is falsy — contributes weight 1. -/
def lookupWeight (tw : List (String × ℚ)) (tag : String) : ℚ :=
  match alGet tag tw with
  | some w => if w = 0 then 1 else w
  | none => 1

/-- Document frequency of a tag: the number of items whose lowercased tag list
contains it (each item counts once; `computeTagWeights` dedups per item). -/
def docFrequency (tag : String) (items : List AnecdoteMeta) : Nat :=
  items.countP (fun it => it.tagsLower.contains tag)

def computeThemeScore (a : AnecdoteMeta) (recipe : StorylineRecipe)
    (tagWeights : List (String × ℚ)) : ThemeScore :=
  let themeTagMatches := countTagMatches a.tagsLower recipe.focusTags
  let tagScore : ℚ :=
    if themeTagMatches ≠ 0 then
      (recipe.focusTags.foldl
        (fun sum tag => if a.tagsLower.contains tag then sum + lookupWeight tagWeights tag else sum)
        0) * themeTagWeightW
    else 0
  let keywordScore : ℚ := (countMatches a.textLower recipe.focusKeywords : ℚ) * themeKeywordWeightW
  let impactScore : ℚ :=
    if recipe.mode = .impact then (computeImpactScore a : ℚ) * impactModeMultiplierW else 0
  { total := tagScore + keywordScore + impactScore
  , tagScore := tagScore, keywordScore := keywordScore, impactScore := impactScore }

/-- `Math.abs(candidate._timestamp - prev._timestamp) / YEAR_MS`, `none` for NaN. -/
def timeDiffYears (a b : Option Int) : Option ℚ :=
  match a, b with
  | some x, some y => some (((x - y).natAbs : ℚ) / (YEAR_MS : ℚ))
  | _, _ => none

def scoreConnection (prev candidate : AnecdoteMeta) (recipe : StorylineRecipe)
    (usage : List (String × Nat)) (tagWeights : List (String × ℚ))
    (storytellerStreak : Nat) : StorylineScoreBreakdown :=
  let shared := sharedTags prev candidate
  let sharedTagScore : ℚ := (shared.length : ℚ) * sharedTagW
  let storytellerScore : ℚ :=
    if prev.storyteller = candidate.storyteller then
      max storytellerMinW (storytellerBaseW - (storytellerStreak : ℚ) * storytellerDecayW)
    else if storytellerStreak ≥ 2 then storytellerVarietyBonusW
    else 0
  let locationScore : ℚ :=
    if prev.location ≠ "" ∧ prev.location = candidate.location then locationW else 0
  let timeDiff := timeDiffYears candidate.tsMs prev.tsMs
  let chronologyScore : ℚ := if tsGe candidate.tsMs prev.tsMs then chronologicalForwardW else 0
  let recencyScore : ℚ :=
    match timeDiff with
    | some d => (if d ≤ 1 then timeWithinYearW else 0) + (if d ≤ 3 then timeWithin3YearsW else 0)
    | none => 0
  let theme := computeThemeScore candidate recipe tagWeights
  let usedCount := usageGet candidate.id usage
  let usagePenalty : ℚ := (usedCount : ℚ) * usagePenaltyW
  let modePenalty : ℚ :=
    if recipe.mode = .chronological ∧ tsLt candidate.tsMs prev.tsMs then
      chronologicalBacktrackPenaltyW
    else 0
  let total := sharedTagScore + storytellerScore + locationScore + chronologyScore
    + recencyScore + theme.total - usagePenalty - modePenalty
  { total := total
  , sharedTagScore := sharedTagScore
  , storytellerScore := storytellerScore
  , locationScore := locationScore
  , chronologyScore := chronologyScore
  , recencyScore := recencyScore
  , themeScore := theme.total
  , usagePenalty := usagePenalty
  , modePenalty := modePenalty
  , storytellerStreak := storytellerStreak
  , sharedTags := shared
  , previousAnecdoteId := prev.id
  , candidateAnecdoteId := candidate.id }

/-! ### Sorting (model of the stable JS `sort((a, b) => a._timestamp - b._timestamp)`) -/

def insertByTs (x : AnecdoteMeta) : List AnecdoteMeta → List AnecdoteMeta
  | [] => [x]
  | y :: ys => if tsLt y.tsMs x.tsMs then y :: insertByTs x ys else x :: y :: ys

/-- Stable ascending sort by timestamp: an earlier-listed element stays before every
equal-timestamp element, matching the stable JS array sort.  A `NaN` timestamp makes
the JS comparator return `NaN`, which the sort treats as "equal"; `tsLt` returns
`false` there, giving the same no-swap behavior. -/
def sortByTs : List AnecdoteMeta → List AnecdoteMeta
  | [] => []
  | x :: xs => insertByTs x (sortByTs xs)

/-! ### Chain builder -/

/-- The standalone affinity score a non-chronological recipe uses to pick a start. -/
def startScore (item : AnecdoteMeta) (recipe : StorylineRecipe)
    (usage : List (String × Nat)) (tagWeights : List (String × ℚ)) : ℚ :=
  (computeThemeScore item recipe tagWeights).total
    + (computeImpactScore item : ℚ) * startImpactBoostW
    - (usageGet item.id usage : ℚ) * startUsagePenaltyW

/-- The `items.forEach` accumulator loop of `pickStart` (strict improvement, first
best wins). -/
def pickStartAux (recipe : StorylineRecipe) (usage : List (String × Nat))
    (tagWeights : List (String × ℚ)) (acc : Option (AnecdoteMeta × ℚ)) :
    List AnecdoteMeta → Option (AnecdoteMeta × ℚ)
  | [] => acc
  | item :: rest =>
    match acc with
    | none => pickStartAux recipe usage tagWeights
        (some (item, startScore item recipe usage tagWeights)) rest
    | some (best, bestScore) =>
      if startScore item recipe usage tagWeights > bestScore then
        pickStartAux recipe usage tagWeights
          (some (item, startScore item recipe usage tagWeights)) rest
      else pickStartAux recipe usage tagWeights (some (best, bestScore)) rest

def pickStart (items : List AnecdoteMeta) (recipe : StorylineRecipe)
    (usage : List (String × Nat)) (tagWeights : List (String × ℚ)) : Option AnecdoteMeta :=
  match recipe.mode with
  | .chronological => (sortByTs items).head?
  | _ =>
    match pickStartAux recipe usage tagWeights none items with
    | some (m, _) => some m
    | none => items.head?

/-- The narrator streak computed at the top of each `while` iteration: the length of
the trailing run of chain beats whose storyteller equals the current beat's. -/
def storytellerStreakOf (chain : List AnecdoteMeta) (current : AnecdoteMeta) : Nat :=
  (chain.reverse.takeWhile (fun m => m.storyteller == current.storyteller)).length

/-- The inner `for (const candidate of sorted)` loop: skip used ids, keep the
strictly-highest-scoring candidate together with its breakdown. -/
def bestCandidateAux (current : AnecdoteMeta) (recipe : StorylineRecipe)
    (usage : List (String × Nat)) (tagWeights : List (String × ℚ)) (streak : Nat)
    (used : List String) (acc : Option (AnecdoteMeta × StorylineScoreBreakdown)) :
    List AnecdoteMeta → Option (AnecdoteMeta × StorylineScoreBreakdown)
  | [] => acc
  | candidate :: rest =>
    if used.contains candidate.id then
      bestCandidateAux current recipe usage tagWeights streak used acc rest
    else
      match acc with
      | none => bestCandidateAux current recipe usage tagWeights streak used
          (some (candidate, scoreConnection current candidate recipe usage tagWeights streak)) rest
      | some (best, bb) =>
        if (scoreConnection current candidate recipe usage tagWeights streak).total > bb.total then
          bestCandidateAux current recipe usage tagWeights streak used
            (some (candidate, scoreConnection current candidate recipe usage tagWeights streak)) rest
        else bestCandidateAux current recipe usage tagWeights streak used (some (best, bb)) rest

def bestCandidate (sorted : List AnecdoteMeta) (current : AnecdoteMeta)
    (recipe : StorylineRecipe) (usage : List (String × Nat))
    (tagWeights : List (String × ℚ)) (streak : Nat) (used : List String) :
    Option (AnecdoteMeta × StorylineScoreBreakdown) :=
  bestCandidateAux current recipe usage tagWeights streak used none sorted

/-- `const forward = sorted.find(...); const fallback = forward || sorted.find(...)`. -/
def fallbackPick (sorted : List AnecdoteMeta) (used : List String)
    (current : AnecdoteMeta) : Option AnecdoteMeta :=
  match sorted.find? (fun it => !(used.contains it.id) && tsGe it.tsMs current.tsMs) with
  | some f => some f
  | none => sorted.find? (fun it => !(used.contains it.id))

/-- One acceptance decision of the `while` loop body: the max-scoring candidate if its
score is non-negative, otherwise the chronological fallback — still paired with the
(possibly stale) `bestBreakdown`, exactly as the source stores it.  `none` means
`break`. -/
def selectNext (sorted : List AnecdoteMeta) (recipe : StorylineRecipe)
    (usage : List (String × Nat)) (tagWeights : List (String × ℚ))
    (used : List String) (current : AnecdoteMeta) (streak : Nat) :
    Option (AnecdoteMeta × Option StorylineScoreBreakdown) :=
  match bestCandidate sorted current recipe usage tagWeights streak used with
  | some (best, bd) =>
    if bd.total < 0 then
      match fallbackPick sorted used current with
      | none => none
      | some f => some (f, some bd)
    else some (best, some bd)
  | none =>
    match fallbackPick sorted used current with
    | none => none
    | some f => some (f, none)

structure LoopState where
  chain : List AnecdoteMeta
  used : List String
  current : AnecdoteMeta
  debug : List (String × StorylineScoreBreakdown)
  deriving Repr

/-- The `while (chain.length < targetLength && used.size < sorted.length)` loop as a
fuel recursion.  `buildChain` supplies `fuel = sorted.length`; each iteration adds one
fresh id to `used`, whose size starts at 1, so the guard `used.size < sorted.length`
always fails before the fuel does (`chainLoop_length_eq` below makes this exact). -/
def chainLoop (sorted : List AnecdoteMeta) (recipe : StorylineRecipe)
    (targetLength : Nat) (usage : List (String × Nat))
    (tagWeights : List (String × ℚ)) : Nat → LoopState → LoopState
  | 0, st => st
  | fuel + 1, st =>
    if st.chain.length < targetLength ∧ st.used.length < sorted.length then
      match selectNext sorted recipe usage tagWeights st.used st.current
          (storytellerStreakOf st.chain st.current) with
      | none => st
      | some (best, obd) =>
        chainLoop sorted recipe targetLength usage tagWeights fuel
          { chain := st.chain ++ [best]
          , used := st.used ++ [best.id]
          , current := best
          , debug :=
              match obd with
              | some bd => alSet best.id bd st.debug
              | none => st.debug }
    else st

structure ChainBuildResult where
  chain : List AnecdoteMeta
  debugByBeat : List (String × StorylineScoreBreakdown)
  deriving Repr

def buildChain (items : List AnecdoteMeta) (recipe : StorylineRecipe)
    (targetLength : Nat) (usage : List (String × Nat))
    (tagWeights : List (String × ℚ)) : ChainBuildResult :=
  if items.isEmpty then { chain := [], debugByBeat := [] }
  else
    let sorted := sortByTs items
    match pickStart sorted recipe usage tagWeights with
    | none => { chain := [], debugByBeat := [] }
    | some current =>
      let final := chainLoop sorted recipe targetLength usage tagWeights sorted.length
        { chain := [current], used := [current.id], current := current, debug := [] }
      { chain := final.chain, debugByBeat := final.debug }

/-! ### Narrative renderer -/

def lastSpaceIdxAux : List Char → Nat → Option Nat → Option Nat
  | [], _, acc => acc
  | c :: rest, i, acc => lastSpaceIdxAux rest (i + 1) (if c == ' ' then some i else acc)

/-- `trimmed.lastIndexOf(' ')`, `none` for `-1`. -/
def lastSpaceIdx (l : List Char) : Option Nat := lastSpaceIdxAux l 0 none

def truncate (text : String) (maxLen : Nat) : String :=
  if text.length ≤ maxLen then text
  else
    let trimmed := text.toList.take (maxLen - 3)
    let body :=
      match lastSpaceIdx trimmed with
      | some i => if i > 40 then trimmed.take i else trimmed
      | none => trimmed
    String.mk body ++ "..."

def buildConnection (prev next : AnecdoteMeta) : StorylineConnection :=
  let shared := sharedTags prev next
  match shared with
  | t :: _ => { type := .tag, label := "#" ++ t }
  | [] =>
    if prev.storyteller = next.storyteller then
      { type := .storyteller, label := prev.storyteller }
    else if prev.location ≠ "" ∧ prev.location = next.location then
      { type := .location, label := prev.location }
    else
      { type := .chronology, label := toString prev.year ++ " to " ++ toString next.year }

def locSuffix (beat : AnecdoteMeta) : String :=
  if beat.location ≠ "" then " at " ++ beat.location else ""

def buildVoiceover (style : StorylineStyle) (beat : AnecdoteMeta)
    (index total : Nat) : String :=
  let summary := truncate beat.story 120
  let location := locSuffix beat
  let y := toString beat.year
  match style with
  | .fiftyCent =>
    if index = 0 then "Back in " ++ y ++ location ++ ", it started with " ++ jsToLower beat.title ++ "."
    else if index = total - 1 then "By " ++ y ++ ", " ++ beat.title ++ " was proof the city had changed."
    else beat.title ++ location ++ ". " ++ summary
  | .jesse =>
    if index = 0 then "In " ++ y ++ location ++ ", a quiet shift started to feel inevitable."
    else if index = total - 1 then "By " ++ y ++ ", the story is no longer about a moment but a movement."
    else beat.storyteller ++ " remembers " ++ jsToLower beat.title ++ ". " ++ summary
  | .coogler =>
    if index = 0 then "In " ++ y ++ location ++ ", a spark caught—small, personal, and loud."
    else if index = total - 1 then "By " ++ y ++ ", the whole city could feel the change."
    else beat.title ++ " carries the momentum. " ++ summary
  | .hybrid =>
    if index = 0 then "Seattle didn\x27t plan for this. " ++ beat.title ++ " lit the fuse in " ++ y ++ "."
    else if index = total - 1 then "The story keeps evolving after " ++ y ++ "."
    else beat.title ++ ". " ++ summary

def buildOpeningLine (style : StorylineStyle) (first : AnecdoteMeta) : String :=
  let location := locSuffix first
  let y := toString first.year
  match style with
  | .fiftyCent => "This is how the city started moving in " ++ y ++ location ++ "."
  | .jesse => "A sound crossed oceans and settled into Seattle by " ++ y ++ "."
  | .coogler => "In " ++ y ++ location ++ ", a new rhythm found its people."
  | .hybrid => "In " ++ y ++ location ++ ", the timeline sparks."

def buildClosingLine (style : StorylineStyle) (last : AnecdoteMeta) : String :=
  match style with
  | .fiftyCent => "Now the rhythm is part of the city\x27s DNA."
  | .jesse => "The movement keeps writing its next chapter."
  | .coogler => "The story lands, but the music keeps moving."
  | .hybrid => "The beat keeps moving after " ++ toString last.year ++ "."

/-- One rendered beat.  `Math.round(1 + impact/2)` is written with `jsRound`. -/
def mkBeat (recipe : StorylineRecipe) (chainLen : Nat)
    (debugByBeat : List (String × StorylineScoreBreakdown))
    (prev : Option AnecdoteMeta) (index : Nat) (beat : AnecdoteMeta) : StorylineBeat :=
  { id := recipe.id ++ "-" ++ toString (index + 1)
  , anecdote := beat
  , summary := truncate beat.story 140
  , voiceover := buildVoiceover recipe.style beat index chainLen
  , connection :=
      match prev with
      | some p => some (buildConnection p beat)
      | none => none
  , intensity := min 5 (max 1 (jsRound (1 + (computeImpactScore beat : ℚ) / 2)).toNat)
  , debug :=
      match prev with
      | some _ => alGet beat.id debugByBeat
      | none => none }

/-- `chain.map((beat, index) => ...)` as an index-carrying recursion; `prev` is
`chain[index - 1]`. -/
def beatsAux (recipe : StorylineRecipe) (chainLen : Nat)
    (debugByBeat : List (String × StorylineScoreBreakdown)) :
    Option AnecdoteMeta → Nat → List AnecdoteMeta → List StorylineBeat
  | _, _, [] => []
  | prev, i, m :: rest =>
    mkBeat recipe chainLen debugByBeat prev i m :: beatsAux recipe chainLen debugByBeat (some m) (i + 1) rest

/-- Ascending numeric sort of the distinct years. -/
def insertIntAsc (x : Int) : List Int → List Int
  | [] => [x]
  | y :: ys => if y < x then y :: insertIntAsc x ys else x :: y :: ys

def sortIntAsc : List Int → List Int
  | [] => []
  | x :: xs => insertIntAsc x (sortIntAsc xs)

/-- `buildStoryline`.  The `[]` branch is unreachable in the pipeline (the assembler
only renders non-empty chains); it returns an inert empty storyline so the model is
total. -/
def buildStoryline (recipe : StorylineRecipe) (chain : List AnecdoteMeta)
    (debugByBeat : List (String × StorylineScoreBreakdown)) : Storyline :=
  match chain with
  | [] =>
    { id := recipe.id, title := recipe.title, description := recipe.description
    , style := recipe.style, tone := STYLE_TONE recipe.style
    , openingLine := "", closingLine := "", beats := [], tags := []
    , timeframeStart := "", timeframeEnd := "", timeframeYears := [] }
  | first :: _ =>
    let last := chain.getLastD first
    { id := recipe.id
    , title := recipe.title
    , description := recipe.description
    , style := recipe.style
    , tone := STYLE_TONE recipe.style
    , openingLine := buildOpeningLine recipe.style first
    , closingLine := buildClosingLine recipe.style last
    , beats := beatsAux recipe chain.length debugByBeat none 0 chain
    , tags := dedupFirst (chain.foldr (fun beat acc => beat.tags ++ acc) [])
    , timeframeStart := first.date
    , timeframeEnd := last.date
    , timeframeYears := sortIntAsc (dedupFirst (chain.map (fun beat => beat.year))) }

/-! ### Top tags (model of `Object.entries(counts)` + stable descending sort) -/

/-- Canonical array-index keys (`"0"`, `"17"`, …) come first, in ascending numeric
order, when a JS object's entries are enumerated; all other keys follow in insertion
order. -/
def isArrayIndexKey (s : String) : Bool :=
  match s.toNat? with
  | some n => toString n == s && n < 4294967295
  | none => false

def keyNum (s : String) : Nat :=
  match s.toNat? with
  | some n => n
  | none => 0

def insertKeyAsc (x : String × Nat) : List (String × Nat) → List (String × Nat)
  | [] => [x]
  | y :: ys => if keyNum y.1 < keyNum x.1 then y :: insertKeyAsc x ys else x :: y :: ys

def sortKeysAsc : List (String × Nat) → List (String × Nat)
  | [] => []
  | x :: xs => insertKeyAsc x (sortKeysAsc xs)

def jsEntries (counts : List (String × Nat)) : List (String × Nat) :=
  sortKeysAsc (counts.filter (fun p => isArrayIndexKey p.1))
    ++ counts.filter (fun p => !isArrayIndexKey p.1)

/-- Stable descending sort by count (`.sort((a, b) => b[1] - a[1])`). -/
def insertCntDesc (x : String × Nat) : List (String × Nat) → List (String × Nat)
  | [] => [x]
  | y :: ys => if y.2 > x.2 then y :: insertCntDesc x ys else x :: y :: ys

def sortCntDesc : List (String × Nat) → List (String × Nat)
  | [] => []
  | x :: xs => insertCntDesc x (sortCntDesc xs)

def getTopTags (items : List AnecdoteMeta) (limit : Nat) : List String :=
  let counts := items.foldl
    (fun acc item => item.tagsLower.foldl (fun a tag => bumpCount tag a) acc) []
  ((sortCntDesc (jsEntries counts)).take limit).map (fun p => p.1)

/-! ### Storyline assembler -/

def recipesOf (topTags : List String) : List StorylineRecipe :=
  [ { id := "chronicle", title := "Origins to Spotlight"
    , description := "A straight-line rise from the first rooms to the biggest stages."
    , style := .jesse, mode := .chronological, focusTags := topTags, focusKeywords := [] }
  , { id := "nightlife", title := "Nightlife Pulse"
    , description := "The late-night circuit that kept the rhythm alive."
    , style := .fiftyCent, mode := .tag
    , focusTags := dedupFirst (NIGHTLIFE_TAGS ++ topTags), focusKeywords := NIGHTLIFE_KEYWORDS }
  , { id := "breakthrough", title := "Breakthrough Moments"
    , description := "When the scene broke past its borders and stayed there."
    , style := .hybrid, mode := .impact, focusTags := topTags, focusKeywords := IMPACT_KEYWORDS }
  , { id := "cinematic", title := "Heat & Hope"
    , description := "A cinematic rise shaped by grit, joy, and the people who held it together."
    , style := .coogler, mode := .impact, focusTags := topTags
    , focusKeywords := IMPACT_KEYWORDS ++ COMMUNITY_KEYWORDS } ]

def targetLengthOf (itemCount : Nat) : Nat :=
  min 8 (max 4 (jsRound ((itemCount : ℚ) * 0.45)).toNat)

def chainSignature (chain : List AnecdoteMeta) : String :=
  jsJoin "-" (chain.map (fun item => item.id))

structure AssemblerState where
  usage : List (String × Nat)
  storylines : List Storyline
  signatures : List String
  deriving Repr

/-- The body of `recipes.forEach(...)`: build, length-filter, signature-dedup, render,
then charge usage for every chain item. -/
def processRecipe (items : List AnecdoteMeta) (tagWeights : List (String × ℚ))
    (targetLength : Nat) (st : AssemblerState) (recipe : StorylineRecipe) : AssemblerState :=
  let r := buildChain items recipe targetLength st.usage tagWeights
  if r.chain.length < 3 then st
  else
    let signature := chainSignature r.chain
    if st.signatures.contains signature then st
    else
      { usage := r.chain.foldl (fun u item => alSet item.id (usageGet item.id u + 1) u) st.usage
      , storylines := st.storylines ++ [buildStoryline recipe r.chain r.debugByBeat]
      , signatures := st.signatures ++ [signature] }

def fallbackRecipeOf (topTags : List String) : StorylineRecipe :=
  { id := "core", title := "The Core Story"
  , description := "A quick-cut run through the key memories so far."
  , style := .hybrid, mode := .chronological, focusTags := topTags, focusKeywords := [] }

/-- The state after `recipes.forEach(...)`: the run over the full recipe catalog from
the empty usage counter, storyline list and signature set. -/
def assembleState (wf : Nat → Nat → ℚ) (items : List AnecdoteMeta) : AssemblerState :=
  (recipesOf (getTopTags items 6)).foldl
    (processRecipe items (computeTagWeights wf items) (targetLengthOf items.length))
    { usage := [], storylines := [], signatures := [] }

/-- The chain built for the fallback `core` recipe (target `min(6, itemCount)`,
against the usage counter left by the normal recipes). -/
def fallbackResult (wf : Nat → Nat → ℚ) (items : List AnecdoteMeta) : ChainBuildResult :=
  buildChain items (fallbackRecipeOf (getTopTags items 6)) (min 6 items.length)
    (assembleState wf items).usage (computeTagWeights wf items)

/-- `generateStorylines`, parameterized by the tag-weight value `wf` (see the module
doc comment): the executable pipeline with `computeTagWeights wf` in place of the
`Math.log`-valued table. -/
def generateStorylines (wf : Nat → Nat → ℚ) (anecdotes : List Anecdote) : List Storyline :=
  if anecdotes.isEmpty then []
  else if (assembleState wf (toMeta anecdotes)).storylines.isEmpty
      ∧ ¬(toMeta anecdotes).isEmpty then
    if ¬(fallbackResult wf (toMeta anecdotes)).chain.isEmpty then
      (assembleState wf (toMeta anecdotes)).storylines
        ++ [buildStoryline (fallbackRecipeOf (getTopTags (toMeta anecdotes) 6))
              (fallbackResult wf (toMeta anecdotes)).chain
              (fallbackResult wf (toMeta anecdotes)).debugByBeat]
    else (assembleState wf (toMeta anecdotes)).storylines
  else (assembleState wf (toMeta anecdotes)).storylines

/-! ### The real tag weight (`Math.log`-based, for the tag-weighting claims) -/

/-- `Number(x.toFixed(3))`: round to 3 decimals (ties toward +∞, per the `toFixed`
specification). -/
noncomputable def toFixed3 (x : ℝ) : ℝ := (⌊x * 1000 + 1 / 2⌋ : ℝ) / 1000

/-- The weight the source stores for a tag: `ln((N+1)/(df+1)) + 1` rounded to 3
decimals, with `N = totalDocs` and `df = docCount`. -/
noncomputable def idfWeight (totalDocs docCount : Nat) : ℝ :=
  toFixed3 (Real.log (((totalDocs : ℝ) + 1) / ((docCount : ℝ) + 1)) + 1)

/-! ### Character-level view of the signature join (for the dedup claims) -/

/-- `jsJoin sep` at the character level: `joinSepChar c (l.map String.data)` is the
data of `jsJoin (String.mk [c]) l`. -/
def joinSepChar (sep : Char) : List (List Char) → List Char
  | [] => []
  | [x] => x
  | x :: y :: xs => x ++ sep :: joinSepChar sep (y :: xs)

/-! ### Concrete fixtures (used by the concrete instance theorems below) -/

def mkA (id date : String) (year : Int) (title story narrator loc : String)
    (tags : List String) : Anecdote :=
  { id := id, date := date, year := year, title := title, story := story
  , storyteller := narrator, location := loc, notes := "", media := [], tags := tags
  , createdAt := 0, updatedAt := 0 }

def wfOne : Nat → Nat → ℚ := fun _ _ => 1

def emptyMeta : AnecdoteMeta :=
  { id := "", date := "", year := 0, title := "", story := "", storyteller := ""
  , location := "", notes := "", media := [], tags := [], createdAt := 0, updatedAt := 0
  , tsMs := none, textLower := "", tagsLower := [] }

def mkMeta (id : String) : AnecdoteMeta := { emptyMeta with id := id }

def emptyBreakdown : StorylineScoreBreakdown :=
  { total := 0, sharedTagScore := 0, storytellerScore := 0, locationScore := 0
  , chronologyScore := 0, recencyScore := 0, themeScore := 0, usagePenalty := 0
  , modePenalty := 0, storytellerStreak := 0, sharedTags := []
  , previousAnecdoteId := "", candidateAnecdoteId := "" }

def emptyBeat : StorylineBeat :=
  { id := "", anecdote := emptyMeta, summary := "", voiceover := ""
  , connection := none, intensity := 0, debug := none }

def emptyStoryline : Storyline :=
  { id := "", title := "", description := "", style := .hybrid, tone := ""
  , openingLine := "", closingLine := "", beats := [], tags := []
  , timeframeStart := "", timeframeEnd := "", timeframeYears := [] }

def rFix : StorylineRecipe :=
  { id := "core", title := "", description := "", style := .hybrid
  , mode := .chronological, focusTags := [], focusKeywords := [] }

def aC2p : Anecdote := mkA "p" "2000-01-01" 2000 "alpha" "alpha" "n" "" []
def aC2r : Anecdote := mkA "r" "2005-01-01" 2005 "beta" "beta" "pp" "" []
def aC2s : Anecdote := mkA "s" "2018-06-01" 2018 "gamma" "gamma" "qq" "" []
def aC2q : Anecdote := mkA "q" "2020-01-01" 2020 "delta" "delta" "n" "" []
def c2inp : List Anecdote := [aC2p, aC2r, aC2s, aC2q]

/-- The first storyline the engine emits on `c2inp` (the chronicle chain
`p, q, r, s`); its beat at index 2 carries a stale fallback breakdown. -/
def sC2 : Storyline := (generateStorylines wfOne c2inp).headD emptyStoryline

def aC9a : Anecdote := mkA "u1" "1999-03-05" 1999 "alpha" "alpha" "n1" "" []
def aC9b : Anecdote := mkA "u2" "2003-07-09" 2003 "beta" "beta" "n2" "" []

def mC3p : AnecdoteMeta :=
  { emptyMeta with
    id := "c3a", storyteller := "nn", tsMs := some 1273017600000,
    tagsLower := ["x", "y"] }

def mC3c : AnecdoteMeta :=
  { emptyMeta with
    id := "c3b", storyteller := "nn",
    tsMs := some (1273017600000 + 86400000), tagsLower := ["x", "y"] }

def mC6a : AnecdoteMeta := { emptyMeta with id := "d1", tagsLower := ["x", "y"] }
def mC6b : AnecdoteMeta := { emptyMeta with id := "d2", tagsLower := ["x"] }

/-! ## Lemma infrastructure -/

theorem alGet_cons {α : Type} (k k' : String) (v : α) (m : List (String × α)) :
    alGet k ((k', v) :: m) = if k' = k then some v else alGet k m := by
  by_cases h : k' = k
  · simp [alGet, List.find?, h]
  · have hb : (k' == k) = false := by simp [h]
    simp [alGet, List.find?, hb, h]

theorem usageGet_alSet (x k : String) (v : Nat) (u : List (String × Nat)) :
    usageGet x (alSet k v u) = if k = x then v else usageGet x u := by
  by_cases h : k = x <;> simp [usageGet, alSet, alGet_cons, h]

theorem mem_dedupFirstAux {α : Type} [DecidableEq α] (x : α) :
    ∀ (l seen : List α), x ∈ dedupFirstAux seen l ↔ x ∈ l ∧ x ∉ seen := by
  intro l
  induction l with
  | nil => intro seen; simp [dedupFirstAux]
  | cons a rest ih =>
    intro seen
    by_cases ha : a ∈ seen
    · rw [dedupFirstAux, if_pos ha, ih]
      constructor
      · rintro ⟨hx, hs⟩
        exact ⟨List.mem_cons_of_mem a hx, hs⟩
      · rintro ⟨hx, hs⟩
        rcases List.mem_cons.mp hx with rfl | hx
        · exact absurd ha hs
        · exact ⟨hx, hs⟩
    · rw [dedupFirstAux, if_neg ha]
      constructor
      · intro hmem
        rcases List.mem_cons.mp hmem with rfl | hmem
        · exact ⟨List.mem_cons_self _ _, ha⟩
        · obtain ⟨hx, hs⟩ := (ih (a :: seen)).mp hmem
          exact ⟨List.mem_cons_of_mem a hx, fun hseen => hs (List.mem_cons_of_mem a hseen)⟩
      · rintro ⟨hx, hs⟩
        rcases List.mem_cons.mp hx with rfl | hx
        · exact List.mem_cons_self _ _
        · by_cases hxa : x = a
          · subst hxa; exact List.mem_cons_self _ _
          · refine List.mem_cons_of_mem _ ((ih (a :: seen)).mpr ⟨hx, ?_⟩)
            intro hmem
            rcases List.mem_cons.mp hmem with h1 | h1
            · exact hxa h1
            · exact hs h1

theorem mem_dedupFirst {α : Type} [DecidableEq α] (x : α) (l : List α) :
    x ∈ dedupFirst l ↔ x ∈ l := by
  simp [dedupFirst, mem_dedupFirstAux]

theorem nodup_dedupFirstAux {α : Type} [DecidableEq α] :
    ∀ (l seen : List α), (dedupFirstAux seen l).Nodup := by
  intro l
  induction l with
  | nil => intro seen; simp [dedupFirstAux]
  | cons a rest ih =>
    intro seen
    by_cases ha : a ∈ seen
    · simpa [dedupFirstAux, if_pos ha] using ih seen
    · simp only [dedupFirstAux, if_neg ha, List.nodup_cons]
      refine ⟨fun hmem => ?_, ih (a :: seen)⟩
      exact ((mem_dedupFirstAux a rest (a :: seen)).mp hmem).2 (List.mem_cons_self a seen)

theorem nodup_dedupFirst {α : Type} [DecidableEq α] (l : List α) :
    (dedupFirst l).Nodup := nodup_dedupFirstAux l []

theorem alGet_bumpCount_self (t : String) :
    ∀ l : List (String × Nat), alGet t (bumpCount t l) = some ((alGet t l).getD 0 + 1) := by
  intro l
  induction l with
  | nil => simp [bumpCount, alGet, List.find?]
  | cons p rest ih =>
    obtain ⟨k, v⟩ := p
    by_cases h : k = t
    · subst h
      simp [bumpCount, alGet_cons]
    · simp [bumpCount, h, alGet_cons, ih]

theorem alGet_bumpCount_ne (t t' : String) (h : t' ≠ t) :
    ∀ l : List (String × Nat), alGet t' (bumpCount t l) = alGet t' l := by
  intro l
  induction l with
  | nil =>
    have hb : (t == t') = false := by simp [Ne.symm h]
    simp [bumpCount, alGet, List.find?, hb]
  | cons p rest ih =>
    obtain ⟨k, v⟩ := p
    by_cases hk : k = t
    · subst hk
      simp [bumpCount, alGet_cons, Ne.symm h]
    · simp [bumpCount, hk, alGet_cons, ih]

/-! ### Sorting lemmas -/

theorem insertByTs_perm (x : AnecdoteMeta) :
    ∀ l : List AnecdoteMeta, (insertByTs x l).Perm (x :: l) := by
  intro l
  induction l with
  | nil => simp [insertByTs]
  | cons y ys ih =>
    by_cases h : tsLt y.tsMs x.tsMs
    · simp only [insertByTs, if_pos h]
      exact (ih.cons y).trans (List.Perm.swap x y ys)
    · simp [insertByTs, if_neg h]

theorem sortByTs_perm : ∀ l : List AnecdoteMeta, (sortByTs l).Perm l := by
  intro l
  induction l with
  | nil => simp [sortByTs]
  | cons x xs ih =>
    exact (insertByTs_perm x (sortByTs xs)).trans (ih.cons x)

theorem mem_sortByTs (x : AnecdoteMeta) (l : List AnecdoteMeta) :
    x ∈ sortByTs l ↔ x ∈ l := (sortByTs_perm l).mem_iff

theorem length_sortByTs (l : List AnecdoteMeta) :
    (sortByTs l).length = l.length := (sortByTs_perm l).length_eq

theorem nodup_subset_length {α : Type} [DecidableEq α] {l₁ l₂ : List α}
    (h : l₁.Nodup) (hs : l₁ ⊆ l₂) : l₁.length ≤ l₂.length :=
  (h.subperm hs).length_le

/-! ### Candidate-selection lemmas -/

theorem scoreConnection_previousAnecdoteId (p c : AnecdoteMeta) (r : StorylineRecipe)
    (u : List (String × Nat)) (tw : List (String × ℚ)) (k : Nat) :
    (scoreConnection p c r u tw k).previousAnecdoteId = p.id := rfl

theorem scoreConnection_candidateAnecdoteId (p c : AnecdoteMeta) (r : StorylineRecipe)
    (u : List (String × Nat)) (tw : List (String × ℚ)) (k : Nat) :
    (scoreConnection p c r u tw k).candidateAnecdoteId = c.id := rfl

section Selection

variable (current : AnecdoteMeta) (recipe : StorylineRecipe)
variable (usage : List (String × Nat)) (tagWeights : List (String × ℚ))
variable (streak : Nat) (used : List String)

theorem bestCandidateAux_some_spec :
    ∀ (l : List AnecdoteMeta) (acc : Option (AnecdoteMeta × StorylineScoreBreakdown))
      (b : AnecdoteMeta) (bd : StorylineScoreBreakdown),
      bestCandidateAux current recipe usage tagWeights streak used acc l = some (b, bd) →
      acc = some (b, bd) ∨
        (b ∈ l ∧ used.contains b.id = false
          ∧ bd = scoreConnection current b recipe usage tagWeights streak) := by
  intro l
  induction l with
  | nil => intro acc b bd h; exact Or.inl h
  | cons c rest ih =>
    intro acc b bd h
    simp only [bestCandidateAux] at h
    by_cases hc : used.contains c.id
    · rw [if_pos hc] at h
      rcases ih acc b bd h with h1 | ⟨h1, h2, h3⟩
      · exact Or.inl h1
      · exact Or.inr ⟨List.mem_cons_of_mem c h1, h2, h3⟩
    · rw [if_neg hc] at h
      have hcf : used.contains c.id = false := Bool.eq_false_iff.mpr hc
      cases acc with
      | none =>
        dsimp only at h
        rcases ih _ b bd h with h1 | ⟨h1, h2, h3⟩
        · simp only [Option.some.injEq, Prod.mk.injEq] at h1
          refine Or.inr ⟨?_, ?_, ?_⟩
          · rw [← h1.1]; exact List.mem_cons_self c rest
          · rw [← h1.1]; exact hcf
          · rw [← h1.2, ← h1.1]
        · exact Or.inr ⟨List.mem_cons_of_mem c h1, h2, h3⟩
      | some p =>
        obtain ⟨x, bx⟩ := p
        dsimp only at h
        by_cases hcmp : (scoreConnection current c recipe usage tagWeights streak).total > bx.total
        · rw [if_pos hcmp] at h
          rcases ih _ b bd h with h1 | ⟨h1, h2, h3⟩
          · simp only [Option.some.injEq, Prod.mk.injEq] at h1
            refine Or.inr ⟨?_, ?_, ?_⟩
            · rw [← h1.1]; exact List.mem_cons_self c rest
            · rw [← h1.1]; exact hcf
            · rw [← h1.2, ← h1.1]
          · exact Or.inr ⟨List.mem_cons_of_mem c h1, h2, h3⟩
        · rw [if_neg hcmp] at h
          rcases ih _ b bd h with h1 | ⟨h1, h2, h3⟩
          · exact Or.inl h1
          · exact Or.inr ⟨List.mem_cons_of_mem c h1, h2, h3⟩

theorem bestCandidateAux_eq_none :
    ∀ (l : List AnecdoteMeta) (acc : Option (AnecdoteMeta × StorylineScoreBreakdown)),
      bestCandidateAux current recipe usage tagWeights streak used acc l = none →
      acc = none ∧ ∀ c ∈ l, used.contains c.id = true := by
  intro l
  induction l with
  | nil => intro acc h; exact ⟨h, by simp⟩
  | cons c rest ih =>
    intro acc h
    simp only [bestCandidateAux] at h
    by_cases hc : used.contains c.id
    · rw [if_pos hc] at h
      obtain ⟨hacc, hall⟩ := ih acc h
      refine ⟨hacc, fun x hx => ?_⟩
      rcases List.mem_cons.mp hx with rfl | hx
      · exact hc
      · exact hall x hx
    · rw [if_neg hc] at h
      exfalso
      cases acc with
      | none =>
        dsimp only at h
        exact Option.noConfusion (ih _ h).1
      | some p =>
        obtain ⟨x, bx⟩ := p
        dsimp only at h
        by_cases hcmp : (scoreConnection current c recipe usage tagWeights streak).total > bx.total
        · rw [if_pos hcmp] at h
          exact Option.noConfusion (ih _ h).1
        · rw [if_neg hcmp] at h
          exact Option.noConfusion (ih _ h).1

theorem bestCandidate_some_spec (sorted : List AnecdoteMeta)
    (b : AnecdoteMeta) (bd : StorylineScoreBreakdown)
    (h : bestCandidate sorted current recipe usage tagWeights streak used = some (b, bd)) :
    b ∈ sorted ∧ used.contains b.id = false
      ∧ bd = scoreConnection current b recipe usage tagWeights streak := by
  rcases bestCandidateAux_some_spec current recipe usage tagWeights streak used sorted none b bd h with
    h1 | h1
  · exact Option.noConfusion h1
  · exact h1

theorem bestCandidate_none_spec (sorted : List AnecdoteMeta)
    (h : bestCandidate sorted current recipe usage tagWeights streak used = none) :
    ∀ c ∈ sorted, used.contains c.id = true :=
  (bestCandidateAux_eq_none current recipe usage tagWeights streak used sorted none h).2

theorem fallbackPick_some_spec (sorted : List AnecdoteMeta) (f : AnecdoteMeta)
    (h : fallbackPick sorted used current = some f) :
    f ∈ sorted ∧ used.contains f.id = false := by
  rw [fallbackPick] at h
  cases h1 : sorted.find? (fun it => !(used.contains it.id) && tsGe it.tsMs current.tsMs) with
  | some g =>
    rw [h1] at h
    cases h
    have hp := List.find?_some h1
    have hm := List.mem_of_find?_eq_some h1
    simp only [Bool.and_eq_true, Bool.not_eq_true'] at hp
    exact ⟨hm, hp.1⟩
  | none =>
    rw [h1] at h
    have hp := List.find?_some h
    have hm := List.mem_of_find?_eq_some h
    simp only [Bool.not_eq_true'] at hp
    exact ⟨hm, hp⟩

theorem fallbackPick_ne_none (sorted : List AnecdoteMeta) (c : AnecdoteMeta)
    (hc : c ∈ sorted) (hu : used.contains c.id = false) :
    fallbackPick sorted used current ≠ none := by
  intro h
  rw [fallbackPick] at h
  cases h1 : sorted.find? (fun it => !(used.contains it.id) && tsGe it.tsMs current.tsMs) with
  | some g => rw [h1] at h; exact Option.noConfusion h
  | none =>
    rw [h1] at h
    have := List.find?_eq_none.mp h c hc
    simp only [Bool.not_eq_true'] at this
    exact this hu

theorem selectNext_some_spec (sorted : List AnecdoteMeta)
    (b : AnecdoteMeta) (obd : Option StorylineScoreBreakdown)
    (h : selectNext sorted recipe usage tagWeights used current streak = some (b, obd)) :
    b ∈ sorted ∧ used.contains b.id = false ∧
      ∃ bd, obd = some bd ∧ bd.previousAnecdoteId = current.id ∧
        (bd.candidateAnecdoteId = b.id ∨ bd.total < 0) := by
  rw [selectNext] at h
  cases hbc : bestCandidate sorted current recipe usage tagWeights streak used with
  | some p =>
    obtain ⟨bb, bd⟩ := p
    rw [hbc] at h
    dsimp only at h
    obtain ⟨hmem, hused, hbd⟩ := bestCandidate_some_spec current recipe usage tagWeights streak used
      sorted bb bd hbc
    by_cases hneg : bd.total < 0
    · rw [if_pos hneg] at h
      cases hf : fallbackPick sorted used current with
      | none => rw [hf] at h; exact Option.noConfusion h
      | some f =>
        rw [hf] at h
        simp only [Option.some.injEq, Prod.mk.injEq] at h
        obtain ⟨rfl, rfl⟩ := h
        obtain ⟨hfm, hfu⟩ := fallbackPick_some_spec current used sorted _ hf
        exact ⟨hfm, hfu, bd, rfl, by rw [hbd]; rfl, Or.inr hneg⟩
    · rw [if_neg hneg] at h
      simp only [Option.some.injEq, Prod.mk.injEq] at h
      obtain ⟨rfl, rfl⟩ := h
      exact ⟨hmem, hused, bd, rfl, by rw [hbd]; rfl, Or.inl (by rw [hbd]; rfl)⟩
  | none =>
    rw [hbc] at h
    dsimp only at h
    have hall := bestCandidate_none_spec current recipe usage tagWeights streak used sorted hbc
    have hfn : fallbackPick sorted used current = none := by
      rw [fallbackPick]
      have h1 : sorted.find? (fun it => !(used.contains it.id) && tsGe it.tsMs current.tsMs) = none := by
        rw [List.find?_eq_none]
        intro x hx
        simp only [Bool.and_eq_true, Bool.not_eq_true', not_and]
        intro hfalse
        rw [hall x hx] at hfalse
        exact absurd hfalse (by simp)
      rw [h1, List.find?_eq_none]
      intro x hx
      simp only [Bool.not_eq_true']
      intro hfalse
      rw [hall x hx] at hfalse
      exact Bool.noConfusion hfalse
    rw [hfn] at h
    exact Option.noConfusion h

theorem selectNext_ne_none (sorted : List AnecdoteMeta) (c : AnecdoteMeta)
    (hc : c ∈ sorted) (hu : used.contains c.id = false) :
    selectNext sorted recipe usage tagWeights used current streak ≠ none := by
  intro h
  rw [selectNext] at h
  cases hbc : bestCandidate sorted current recipe usage tagWeights streak used with
  | some p =>
    obtain ⟨bb, bd⟩ := p
    rw [hbc] at h
    dsimp only at h
    by_cases hneg : bd.total < 0
    · rw [if_pos hneg] at h
      cases hf : fallbackPick sorted used current with
      | none => exact fallbackPick_ne_none current used sorted c hc hu hf
      | some f => rw [hf] at h; exact Option.noConfusion h
    · rw [if_neg hneg] at h
      exact Option.noConfusion h
  | none =>
    have := bestCandidate_none_spec current recipe usage tagWeights streak used sorted hbc c hc
    rw [hu] at this
    exact Bool.noConfusion this

end Selection

/-! ### Chain-loop invariants -/

theorem contains_eq_true_iff (l : List String) (x : String) :
    l.contains x = true ↔ x ∈ l := by simp

theorem contains_eq_false_iff (l : List String) (x : String) :
    l.contains x = false ↔ x ∉ l := by
  rw [← Bool.not_eq_true, contains_eq_true_iff]

/-- The adjacency property the debug map satisfies along a chain: the later beat of
every consecutive pair has a recorded breakdown compared against the earlier beat,
and the breakdown is the beat's own unless the beat was picked by the chronological
fallback over a best score that was negative. -/
def DebugPairOK (debug : List (String × StorylineScoreBreakdown))
    (p b : AnecdoteMeta) : Prop :=
  ∃ bd, alGet b.id debug = some bd ∧ bd.previousAnecdoteId = p.id ∧
    (bd.candidateAnecdoteId = b.id ∨ bd.total < 0)

def DebugInv (chain : List AnecdoteMeta)
    (debug : List (String × StorylineScoreBreakdown)) : Prop :=
  List.Chain' (DebugPairOK debug) chain

theorem chain'_imp_mem {α : Type} {R S : α → α → Prop} :
    ∀ {l : List α}, (∀ a b, b ∈ l → R a b → S a b) → List.Chain' R l → List.Chain' S l := by
  intro l
  induction l with
  | nil => intro _ _; exact List.chain'_nil
  | cons x xs ih =>
    intro himp hc
    rw [List.chain'_cons'] at hc ⊢
    refine ⟨fun y hy => himp x y (List.mem_cons_of_mem x (List.mem_of_mem_head? hy)) (hc.1 y hy), ?_⟩
    exact ih (fun a b hb hr => himp a b (List.mem_cons_of_mem x hb) hr) hc.2

/-- The running invariant of the `while` loop. -/
structure ChainInv (sorted : List AnecdoteMeta) (st : LoopState) : Prop where
  used_eq : st.used = st.chain.map (fun m => m.id)
  ne : st.chain ≠ []
  lastc : st.chain.getLast? = some st.current
  subset : ∀ m ∈ st.chain, m ∈ sorted
  nodup : (st.chain.map (fun m => m.id)).Nodup
  dbg : DebugInv st.chain st.debug

theorem chainInv_step {sorted : List AnecdoteMeta} {recipe : StorylineRecipe}
    {usage : List (String × Nat)} {tagWeights : List (String × ℚ)} {streak : Nat}
    {st : LoopState} {best : AnecdoteMeta} {bd : StorylineScoreBreakdown}
    (hinv : ChainInv sorted st)
    (hsel : selectNext sorted recipe usage tagWeights st.used st.current streak
      = some (best, some bd)) :
    ChainInv sorted
      { chain := st.chain ++ [best]
      , used := st.used ++ [best.id]
      , current := best
      , debug := alSet best.id bd st.debug } := by
  obtain ⟨hmem, husedb, bd', hobd, hprev, hcand⟩ :=
    selectNext_some_spec st.current recipe usage tagWeights streak st.used sorted best
      (some bd) hsel
  rw [Option.some.injEq] at hobd
  subst hobd
  have hbestNotIn : best.id ∉ st.chain.map (fun m => m.id) := by
    rw [← hinv.used_eq]
    exact (contains_eq_false_iff st.used best.id).mp husedb
  refine
    { used_eq := ?_, ne := ?_, lastc := ?_, subset := ?_, nodup := ?_, dbg := ?_ }
  · simp [hinv.used_eq]
  · simp
  · exact List.getLast?_concat st.chain
  · intro m hm
    rcases List.mem_append.mp hm with hm | hm
    · exact hinv.subset m hm
    · rw [List.mem_singleton.mp hm]; exact hmem
  · rw [List.map_append, List.nodup_append]
    refine ⟨hinv.nodup, by simp, ?_⟩
    intro x hx hy
    simp only [List.map_cons, List.map_nil, List.mem_singleton] at hy
    subst hy
    exact hbestNotIn hx
  · dsimp only [DebugInv]
    rw [List.chain'_append]
    refine ⟨?_, List.chain'_singleton best, ?_⟩
    · refine chain'_imp_mem (fun a b hb hpair => ?_) hinv.dbg
      obtain ⟨bd', hget, hprev', hcand'⟩ := hpair
      refine ⟨bd', ?_, hprev', hcand'⟩
      rw [alSet, alGet_cons]
      have hne : best.id ≠ b.id := by
        intro he
        exact hbestNotIn (he ▸ List.mem_map.mpr ⟨b, hb, rfl⟩)
      rw [if_neg hne]
      exact hget
    · intro x hx y hy
      rw [hinv.lastc] at hx
      simp only [Option.mem_def, Option.some.injEq] at hx
      simp only [List.head?_cons, Option.mem_def, Option.some.injEq] at hy
      subst hx; subst hy
      exact ⟨bd, by rw [alSet, alGet_cons, if_pos rfl], hprev, hcand⟩

theorem chainLoop_inv (sorted : List AnecdoteMeta) (recipe : StorylineRecipe)
    (target : Nat) (usage : List (String × Nat)) (tagWeights : List (String × ℚ)) :
    ∀ (fuel : Nat) (st : LoopState), ChainInv sorted st →
      ChainInv sorted (chainLoop sorted recipe target usage tagWeights fuel st) := by
  intro fuel
  induction fuel with
  | zero => intro st h; rw [chainLoop]; exact h
  | succ n ih =>
    intro st h
    rw [chainLoop]
    by_cases hg : st.chain.length < target ∧ st.used.length < sorted.length
    · rw [if_pos hg]
      cases hsel : selectNext sorted recipe usage tagWeights st.used st.current
          (storytellerStreakOf st.chain st.current) with
      | none => exact h
      | some p =>
        obtain ⟨best, obd⟩ := p
        obtain ⟨-, -, bd, rfl, -, -⟩ := selectNext_some_spec st.current recipe usage tagWeights
          (storytellerStreakOf st.chain st.current) st.used sorted best obd hsel
        exact ih _ (chainInv_step h hsel)
    · rw [if_neg hg]
      exact h

theorem chainLoop_length_le (sorted : List AnecdoteMeta) (recipe : StorylineRecipe)
    (target : Nat) (usage : List (String × Nat)) (tagWeights : List (String × ℚ)) :
    ∀ (fuel : Nat) (st : LoopState), st.chain.length ≤ max 1 target →
      (chainLoop sorted recipe target usage tagWeights fuel st).chain.length ≤ max 1 target := by
  intro fuel
  induction fuel with
  | zero => intro st h; rw [chainLoop]; exact h
  | succ n ih =>
    intro st h
    rw [chainLoop]
    by_cases hg : st.chain.length < target ∧ st.used.length < sorted.length
    · rw [if_pos hg]
      cases hsel : selectNext sorted recipe usage tagWeights st.used st.current
          (storytellerStreakOf st.chain st.current) with
      | none => exact h
      | some p =>
        obtain ⟨best, obd⟩ := p
        refine ih _ ?_
        simp only [List.length_append, List.length_cons, List.length_nil]
        omega
    · rw [if_neg hg]
      exact h

theorem chainLoop_length_mono (sorted : List AnecdoteMeta) (recipe : StorylineRecipe)
    (target : Nat) (usage : List (String × Nat)) (tagWeights : List (String × ℚ)) :
    ∀ (fuel : Nat) (st : LoopState),
      st.chain.length ≤ (chainLoop sorted recipe target usage tagWeights fuel st).chain.length := by
  intro fuel
  induction fuel with
  | zero => intro st; rw [chainLoop]
  | succ n ih =>
    intro st
    rw [chainLoop]
    by_cases hg : st.chain.length < target ∧ st.used.length < sorted.length
    · rw [if_pos hg]
      cases hsel : selectNext sorted recipe usage tagWeights st.used st.current
          (storytellerStreakOf st.chain st.current) with
      | none => exact Nat.le_refl _
      | some p =>
        obtain ⟨best, obd⟩ := p
        refine Nat.le_trans ?_ (ih _)
        simp
    · rw [if_neg hg]

theorem chainLoop_length_eq (sorted : List AnecdoteMeta) (recipe : StorylineRecipe)
    (target : Nat) (usage : List (String × Nat)) (tagWeights : List (String × ℚ))
    (hnd : (sorted.map (fun m => m.id)).Nodup) :
    ∀ (fuel : Nat) (st : LoopState), ChainInv sorted st → st.chain.length ≤ target →
      sorted.length - st.used.length ≤ fuel →
      (chainLoop sorted recipe target usage tagWeights fuel st).chain.length
        = min target sorted.length := by
  have hlen_le : ∀ st : LoopState, ChainInv sorted st → st.chain.length ≤ sorted.length := by
    intro st hinv
    have hsub : st.chain.map (fun m => m.id) ⊆ sorted.map (fun m => m.id) := by
      intro x hx
      obtain ⟨m, hm, rfl⟩ := List.mem_map.mp hx
      exact List.mem_map.mpr ⟨m, hinv.subset m hm, rfl⟩
    have := nodup_subset_length hinv.nodup hsub
    simpa using this
  intro fuel
  induction fuel with
  | zero =>
    intro st hinv hle hfuel
    have hused : sorted.length ≤ st.used.length := by omega
    have hchain : st.chain.length = st.used.length := by
      rw [hinv.used_eq]; simp
    have h1 : st.chain.length = sorted.length := by
      have := hlen_le st hinv
      omega
    rw [chainLoop]
    omega
  | succ n ih =>
    intro st hinv hle hfuel
    rw [chainLoop]
    by_cases hg : st.chain.length < target ∧ st.used.length < sorted.length
    · rw [if_pos hg]
      have hex : ∃ c ∈ sorted, st.used.contains c.id = false := by
        by_contra hnone
        push_neg at hnone
        have hsub : sorted.map (fun m => m.id) ⊆ st.used := by
          intro x hx
          obtain ⟨m, hm, rfl⟩ := List.mem_map.mp hx
          have hmne := hnone m hm
          have htrue : st.used.contains m.id = true := by
            cases hb : st.used.contains m.id
            · exact absurd hb hmne
            · rfl
          exact (contains_eq_true_iff st.used m.id).mp htrue
        have := nodup_subset_length hnd hsub
        simp only [List.length_map] at this
        omega
      obtain ⟨c, hc, hcid⟩ := hex
      cases hsel : selectNext sorted recipe usage tagWeights st.used st.current
          (storytellerStreakOf st.chain st.current) with
      | none =>
        exact absurd hsel (selectNext_ne_none st.current recipe usage tagWeights
          (storytellerStreakOf st.chain st.current) st.used sorted c hc hcid)
      | some p =>
        obtain ⟨best, obd⟩ := p
        obtain ⟨-, -, bd, rfl, -, -⟩ := selectNext_some_spec st.current recipe usage tagWeights
          (storytellerStreakOf st.chain st.current) st.used sorted best obd hsel
        refine ih _ (chainInv_step hinv hsel) ?_ ?_
        · simp only [List.length_append, List.length_cons, List.length_nil]
          omega
        · simp only [List.length_append, List.length_cons, List.length_nil]
          omega
    · rw [if_neg hg]
      push_neg at hg
      have hchain : st.chain.length = st.used.length := by
        rw [hinv.used_eq]; simp
      have hcs := hlen_le st hinv
      by_cases ht : target ≤ st.chain.length
      · omega
      · have := hg (by omega)
        omega

/-! ### `pickStart` and `buildChain` facts -/

theorem pickStartAux_mem (recipe : StorylineRecipe) (usage : List (String × Nat))
    (tagWeights : List (String × ℚ)) :
    ∀ (l : List AnecdoteMeta) (acc : Option (AnecdoteMeta × ℚ)) (m : AnecdoteMeta) (s : ℚ),
      pickStartAux recipe usage tagWeights acc l = some (m, s) →
      acc = some (m, s) ∨ m ∈ l := by
  intro l
  induction l with
  | nil => intro acc m s h; exact Or.inl h
  | cons i rest ih =>
    intro acc m s h
    cases acc with
    | none =>
      rw [pickStartAux] at h
      rcases ih _ m s h with h1 | h1
      · simp only [Option.some.injEq, Prod.mk.injEq] at h1
        exact Or.inr (h1.1 ▸ List.mem_cons_self i rest)
      · exact Or.inr (List.mem_cons_of_mem i h1)
    | some p =>
      obtain ⟨b, bs⟩ := p
      rw [pickStartAux] at h
      by_cases hcmp : startScore i recipe usage tagWeights > bs
      · rw [if_pos hcmp] at h
        rcases ih _ m s h with h1 | h1
        · simp only [Option.some.injEq, Prod.mk.injEq] at h1
          exact Or.inr (h1.1 ▸ List.mem_cons_self i rest)
        · exact Or.inr (List.mem_cons_of_mem i h1)
      · rw [if_neg hcmp] at h
        rcases ih _ m s h with h1 | h1
        · exact Or.inl h1
        · exact Or.inr (List.mem_cons_of_mem i h1)

theorem pickStart_mem (items : List AnecdoteMeta) (recipe : StorylineRecipe)
    (usage : List (String × Nat)) (tagWeights : List (String × ℚ)) (c : AnecdoteMeta)
    (h : pickStart items recipe usage tagWeights = some c) : c ∈ items := by
  rw [pickStart] at h
  cases hm : recipe.mode with
  | chronological =>
    rw [hm] at h
    dsimp only at h
    cases hs : sortByTs items with
    | nil => rw [hs] at h; exact Option.noConfusion h
    | cons a t =>
      rw [hs] at h
      simp only [List.head?_cons, Option.some.injEq] at h
      subst h
      have ha : a ∈ sortByTs items := by rw [hs]; exact List.mem_cons_self a t
      exact (mem_sortByTs a items).mp ha
  | tag =>
    rw [hm] at h
    dsimp only at h
    cases hp : pickStartAux recipe usage tagWeights none items with
    | some p =>
      obtain ⟨m, s⟩ := p
      rw [hp] at h
      simp only [Option.some.injEq] at h
      subst h
      rcases pickStartAux_mem recipe usage tagWeights items none m s hp with h1 | h1
      · exact Option.noConfusion h1
      · exact h1
    | none =>
      rw [hp] at h
      exact List.mem_of_mem_head? h
  | impact =>
    rw [hm] at h
    dsimp only at h
    cases hp : pickStartAux recipe usage tagWeights none items with
    | some p =>
      obtain ⟨m, s⟩ := p
      rw [hp] at h
      simp only [Option.some.injEq] at h
      subst h
      rcases pickStartAux_mem recipe usage tagWeights items none m s hp with h1 | h1
      · exact Option.noConfusion h1
      · exact h1
    | none =>
      rw [hp] at h
      exact List.mem_of_mem_head? h
  | community =>
    rw [hm] at h
    dsimp only at h
    cases hp : pickStartAux recipe usage tagWeights none items with
    | some p =>
      obtain ⟨m, s⟩ := p
      rw [hp] at h
      simp only [Option.some.injEq] at h
      subst h
      rcases pickStartAux_mem recipe usage tagWeights items none m s hp with h1 | h1
      · exact Option.noConfusion h1
      · exact h1
    | none =>
      rw [hp] at h
      exact List.mem_of_mem_head? h

theorem pickStart_isSome (items : List AnecdoteMeta) (recipe : StorylineRecipe)
    (usage : List (String × Nat)) (tagWeights : List (String × ℚ))
    (hne : items ≠ []) : pickStart items recipe usage tagWeights ≠ none := by
  intro h
  rw [pickStart] at h
  have hsne : sortByTs items ≠ [] := by
    intro hs
    have := length_sortByTs items
    rw [hs] at this
    exact hne (List.length_eq_zero.mp this.symm)
  cases hm : recipe.mode <;> rw [hm] at h <;> dsimp only at h
  · exact hsne (List.head?_eq_none_iff.mp h)
  all_goals
    cases hp : pickStartAux recipe usage tagWeights none items with
    | some p =>
      obtain ⟨m, s⟩ := p
      rw [hp] at h
      exact Option.noConfusion h
    | none =>
      rw [hp] at h
      exact hne (List.head?_eq_none_iff.mp h)

/-- The structural facts `buildChain` guarantees unconditionally. -/
theorem buildChain_ok (items : List AnecdoteMeta) (recipe : StorylineRecipe)
    (target : Nat) (usage : List (String × Nat)) (tagWeights : List (String × ℚ)) :
    (∀ m ∈ (buildChain items recipe target usage tagWeights).chain, m ∈ items)
    ∧ ((buildChain items recipe target usage tagWeights).chain.map (fun m => m.id)).Nodup
    ∧ DebugInv (buildChain items recipe target usage tagWeights).chain
        (buildChain items recipe target usage tagWeights).debugByBeat
    ∧ (buildChain items recipe target usage tagWeights).chain.length ≤ max 1 target
    ∧ (buildChain items recipe target usage tagWeights).chain.length ≤ items.length := by
  rw [buildChain]
  by_cases he : items.isEmpty
  · rw [if_pos he]
    refine ⟨by simp, by simp [DebugInv], by simp [DebugInv], by simp, by simp⟩
  · rw [if_neg he]
    dsimp only
    cases hp : pickStart (sortByTs items) recipe usage tagWeights with
    | none =>
      refine ⟨by simp, by simp [DebugInv], by simp [DebugInv], by simp, by simp⟩
    | some c =>
      dsimp only
      have hcmem : c ∈ sortByTs items := pickStart_mem (sortByTs items) recipe usage tagWeights c hp
      have hinit : ChainInv (sortByTs items)
          { chain := [c], used := [c.id], current := c, debug := [] } :=
        { used_eq := rfl
        , ne := by simp
        , lastc := rfl
        , subset := by intro m hm; rw [List.mem_singleton.mp hm]; exact hcmem
        , nodup := by simp
        , dbg := List.chain'_singleton c }
      have hfin := chainLoop_inv (sortByTs items) recipe target usage tagWeights
        (sortByTs items).length _ hinit
      refine ⟨?_, hfin.nodup, hfin.dbg, ?_, ?_⟩
      · intro m hm
        exact (mem_sortByTs m items).mp (hfin.subset m hm)
      · exact chainLoop_length_le (sortByTs items) recipe target usage tagWeights
          (sortByTs items).length _ (by simp)
      · have hsub : (chainLoop (sortByTs items) recipe target usage tagWeights
            (sortByTs items).length
            { chain := [c], used := [c.id], current := c, debug := [] }).chain.map
              (fun m => m.id)
            ⊆ (sortByTs items).map (fun m => m.id) := by
          intro x hx
          obtain ⟨m, hm, rfl⟩ := List.mem_map.mp hx
          exact List.mem_map.mpr ⟨m, hfin.subset m hm, rfl⟩
        have h3 := nodup_subset_length hfin.nodup hsub
        rw [List.length_map, List.length_map] at h3
        exact h3.trans (le_of_eq (length_sortByTs items))

theorem buildChain_ne_nil (items : List AnecdoteMeta) (recipe : StorylineRecipe)
    (target : Nat) (usage : List (String × Nat)) (tagWeights : List (String × ℚ))
    (hne : items ≠ []) : (buildChain items recipe target usage tagWeights).chain ≠ [] := by
  rw [buildChain]
  have he : ¬(items.isEmpty = true) := by
    intro h
    exact hne (List.isEmpty_iff.mp h)
  rw [if_neg he]
  dsimp only
  cases hp : pickStart (sortByTs items) recipe usage tagWeights with
  | none =>
    exfalso
    refine pickStart_isSome (sortByTs items) recipe usage tagWeights ?_ hp
    intro h
    have := length_sortByTs items
    rw [h] at this
    exact hne (List.length_eq_zero.mp this.symm)
  | some c =>
    dsimp only
    intro hcontra
    have hmono := chainLoop_length_mono (sortByTs items) recipe target usage tagWeights
      (sortByTs items).length
      { chain := [c], used := [c.id], current := c, debug := [] }
    rw [hcontra] at hmono
    simp at hmono

theorem buildChain_length_eq (items : List AnecdoteMeta) (recipe : StorylineRecipe)
    (target : Nat) (usage : List (String × Nat)) (tagWeights : List (String × ℚ))
    (hne : items ≠ []) (hnd : (items.map (fun m => m.id)).Nodup) (ht : 1 ≤ target) :
    (buildChain items recipe target usage tagWeights).chain.length
      = min target items.length := by
  rw [buildChain]
  have he : ¬(items.isEmpty = true) := by
    intro h
    exact hne (List.isEmpty_iff.mp h)
  rw [if_neg he]
  dsimp only
  cases hp : pickStart (sortByTs items) recipe usage tagWeights with
  | none =>
    exfalso
    refine pickStart_isSome (sortByTs items) recipe usage tagWeights ?_ hp
    intro h
    have := length_sortByTs items
    rw [h] at this
    exact hne (List.length_eq_zero.mp this.symm)
  | some c =>
    dsimp only
    have hcmem : c ∈ sortByTs items := pickStart_mem (sortByTs items) recipe usage tagWeights c hp
    have hinit : ChainInv (sortByTs items)
        { chain := [c], used := [c.id], current := c, debug := [] } :=
      { used_eq := rfl
      , ne := by simp
      , lastc := rfl
      , subset := by intro m hm; rw [List.mem_singleton.mp hm]; exact hcmem
      , nodup := by simp
      , dbg := List.chain'_singleton c }
    have hnds : ((sortByTs items).map (fun m => m.id)).Nodup := by
      have hperm := (sortByTs_perm items).map (fun m => m.id)
      exact hperm.nodup_iff.mpr hnd
    have := chainLoop_length_eq (sortByTs items) recipe target usage tagWeights hnds
      (sortByTs items).length
      { chain := [c], used := [c.id], current := c, debug := [] }
      hinit (by simpa using ht) (by simp)
    rw [this, length_sortByTs]

/-! ### Renderer lemmas -/

theorem mkBeat_anecdote (recipe : StorylineRecipe) (L : Nat)
    (d : List (String × StorylineScoreBreakdown)) (prev : Option AnecdoteMeta)
    (i : Nat) (m : AnecdoteMeta) : (mkBeat recipe L d prev i m).anecdote = m := rfl

theorem beatsAux_length (recipe : StorylineRecipe) (L : Nat)
    (d : List (String × StorylineScoreBreakdown)) :
    ∀ (chain : List AnecdoteMeta) (prev : Option AnecdoteMeta) (i : Nat),
      (beatsAux recipe L d prev i chain).length = chain.length := by
  intro chain
  induction chain with
  | nil => intro prev i; rfl
  | cons m rest ih =>
    intro prev i
    simp only [beatsAux, List.length_cons, ih]

theorem beatsAux_map_anecdote (recipe : StorylineRecipe) (L : Nat)
    (d : List (String × StorylineScoreBreakdown)) :
    ∀ (chain : List AnecdoteMeta) (prev : Option AnecdoteMeta) (i : Nat),
      (beatsAux recipe L d prev i chain).map (fun b => b.anecdote) = chain := by
  intro chain
  induction chain with
  | nil => intro prev i; rfl
  | cons m rest ih =>
    intro prev i
    simp only [beatsAux, List.map_cons, ih]
    rfl

theorem beatsAux_conn_chain' (recipe : StorylineRecipe) (L : Nat)
    (d : List (String × StorylineScoreBreakdown)) :
    ∀ (chain : List AnecdoteMeta) (prev : Option AnecdoteMeta) (i : Nat),
      List.Chain' (fun pb b => b.connection = some (buildConnection pb.anecdote b.anecdote))
        (beatsAux recipe L d prev i chain) := by
  intro chain
  induction chain with
  | nil => intro prev i; exact List.chain'_nil
  | cons m rest ih =>
    intro prev i
    rw [beatsAux, List.chain'_cons']
    refine ⟨?_, ih (some m) (i + 1)⟩
    intro y hy
    cases rest with
    | nil => simp [beatsAux] at hy
    | cons m' rest' =>
      simp only [beatsAux, List.head?_cons, Option.mem_def, Option.some.injEq] at hy
      subst hy
      rfl

theorem beatsAux_debug_chain' (recipe : StorylineRecipe) (L : Nat)
    (d : List (String × StorylineScoreBreakdown)) :
    ∀ (chain : List AnecdoteMeta), DebugInv chain d → ∀ (prev : Option AnecdoteMeta) (i : Nat),
      List.Chain'
        (fun pb b => ∃ bd, b.debug = some bd ∧ bd.previousAnecdoteId = pb.anecdote.id
          ∧ (bd.candidateAnecdoteId = b.anecdote.id ∨ bd.total < 0))
        (beatsAux recipe L d prev i chain) := by
  intro chain
  induction chain with
  | nil => intro _ prev i; exact List.chain'_nil
  | cons m rest ih =>
    intro hinv prev i
    rw [DebugInv, List.chain'_cons'] at hinv
    rw [beatsAux, List.chain'_cons']
    refine ⟨?_, ih hinv.2 (some m) (i + 1)⟩
    intro y hy
    cases rest with
    | nil => simp [beatsAux] at hy
    | cons m' rest' =>
      simp only [beatsAux, List.head?_cons, Option.mem_def, Option.some.injEq] at hy
      subst hy
      obtain ⟨bd, hget, hprev, hcand⟩ := hinv.1 m' (by simp)
      exact ⟨bd, hget, hprev, hcand⟩

theorem buildStoryline_id (recipe : StorylineRecipe) (chain : List AnecdoteMeta)
    (d : List (String × StorylineScoreBreakdown)) :
    (buildStoryline recipe chain d).id = recipe.id := by
  cases chain <;> rfl

theorem buildStoryline_beats_length (recipe : StorylineRecipe) (chain : List AnecdoteMeta)
    (d : List (String × StorylineScoreBreakdown)) :
    (buildStoryline recipe chain d).beats.length = chain.length := by
  cases chain with
  | nil => rfl
  | cons m rest =>
    rw [buildStoryline]
    exact beatsAux_length recipe (m :: rest).length d (m :: rest) none 0

theorem buildStoryline_head_conn (recipe : StorylineRecipe) (chain : List AnecdoteMeta)
    (d : List (String × StorylineScoreBreakdown)) :
    ∀ b ∈ (buildStoryline recipe chain d).beats.head?, b.connection = none := by
  cases chain with
  | nil => intro b hb; simp [buildStoryline] at hb
  | cons m rest =>
    intro b hb
    rw [buildStoryline] at hb
    simp only [beatsAux, List.head?_cons, Option.mem_def, Option.some.injEq] at hb
    subst hb
    rfl

theorem buildStoryline_conn_chain' (recipe : StorylineRecipe) (chain : List AnecdoteMeta)
    (d : List (String × StorylineScoreBreakdown)) :
    List.Chain' (fun pb b => b.connection = some (buildConnection pb.anecdote b.anecdote))
      (buildStoryline recipe chain d).beats := by
  cases chain with
  | nil => exact List.chain'_nil
  | cons m rest =>
    rw [buildStoryline]
    exact beatsAux_conn_chain' recipe (m :: rest).length d (m :: rest) none 0

theorem buildStoryline_debug_chain' (recipe : StorylineRecipe) (chain : List AnecdoteMeta)
    (d : List (String × StorylineScoreBreakdown)) (hinv : DebugInv chain d) :
    List.Chain'
      (fun pb b => ∃ bd, b.debug = some bd ∧ bd.previousAnecdoteId = pb.anecdote.id
        ∧ (bd.candidateAnecdoteId = b.anecdote.id ∨ bd.total < 0))
      (buildStoryline recipe chain d).beats := by
  cases chain with
  | nil => exact List.chain'_nil
  | cons m rest =>
    rw [buildStoryline]
    exact beatsAux_debug_chain' recipe (m :: rest).length d (m :: rest) hinv none 0

/-! ### Assembler lemmas -/

/-- Every storyline the engine emits is a rendered chain whose debug map satisfies the
adjacency invariant; normal-recipe chains have ≥ 3 items, the fallback's recipe id is
`"core"`. -/
def GoodStoryline (s : Storyline) : Prop :=
  ∃ recipe chain debugByBeat, s = buildStoryline recipe chain debugByBeat
    ∧ DebugInv chain debugByBeat ∧ (3 ≤ chain.length ∨ recipe.id = "core")

theorem processRecipe_storylines (items : List AnecdoteMeta)
    (tw : List (String × ℚ)) (target : Nat) (st : AssemblerState)
    (recipe : StorylineRecipe) :
    ∀ s ∈ (processRecipe items tw target st recipe).storylines,
      s ∈ st.storylines ∨
        (∃ chain debugByBeat, s = buildStoryline recipe chain debugByBeat
          ∧ DebugInv chain debugByBeat ∧ 3 ≤ chain.length) := by
  intro s hs
  rw [processRecipe] at hs
  by_cases h3 : (buildChain items recipe target st.usage tw).chain.length < 3
  · rw [if_pos h3] at hs
    exact Or.inl hs
  · rw [if_neg h3] at hs
    dsimp only at hs
    by_cases hsig : st.signatures.contains (chainSignature (buildChain items recipe target st.usage tw).chain)
    · rw [if_pos hsig] at hs
      exact Or.inl hs
    · rw [if_neg hsig] at hs
      dsimp only at hs
      rcases List.mem_append.mp hs with hs | hs
      · exact Or.inl hs
      · rw [List.mem_singleton.mp hs]
        refine Or.inr ⟨_, _, rfl, ?_, by omega⟩
        exact (buildChain_ok items recipe target st.usage tw).2.2.1

theorem foldl_processRecipe_storylines (items : List AnecdoteMeta)
    (tw : List (String × ℚ)) (target : Nat) :
    ∀ (recipes : List StorylineRecipe) (st : AssemblerState),
      (∀ s ∈ st.storylines, GoodStoryline s) →
      ∀ s ∈ (recipes.foldl (processRecipe items tw target) st).storylines, GoodStoryline s := by
  intro recipes
  induction recipes with
  | nil => intro st h; exact h
  | cons r rest ih =>
    intro st h
    rw [List.foldl_cons]
    refine ih _ ?_
    intro s hs
    rcases processRecipe_storylines items tw target st r s hs with hs | ⟨c, d, rfl, hd, h3⟩
    · exact h s hs
    · exact ⟨r, c, d, rfl, hd, Or.inl h3⟩

theorem assembleState_good (wf : Nat → Nat → ℚ) (items : List AnecdoteMeta) :
    ∀ s ∈ (assembleState wf items).storylines, GoodStoryline s := by
  rw [assembleState]
  exact foldl_processRecipe_storylines items (computeTagWeights wf items)
    (targetLengthOf items.length) _ _ (by intro s hs; simp at hs)

theorem generateStorylines_origin (wf : Nat → Nat → ℚ) (anecdotes : List Anecdote) :
    ∀ s ∈ generateStorylines wf anecdotes, GoodStoryline s := by
  intro s hs
  rw [generateStorylines] at hs
  by_cases he : anecdotes.isEmpty
  · rw [if_pos he] at hs
    simp at hs
  · rw [if_neg he] at hs
    by_cases hcond : (assembleState wf (toMeta anecdotes)).storylines.isEmpty
        ∧ ¬(toMeta anecdotes).isEmpty
    · rw [if_pos hcond] at hs
      by_cases hchain : ¬(fallbackResult wf (toMeta anecdotes)).chain.isEmpty
      · rw [if_pos hchain] at hs
        rcases List.mem_append.mp hs with hs | hs
        · exact assembleState_good wf (toMeta anecdotes) s hs
        · rw [List.mem_singleton.mp hs]
          refine ⟨fallbackRecipeOf (getTopTags (toMeta anecdotes) 6), _, _, rfl, ?_, Or.inr rfl⟩
          exact (buildChain_ok (toMeta anecdotes)
            (fallbackRecipeOf (getTopTags (toMeta anecdotes) 6))
            (min 6 (toMeta anecdotes).length) (assembleState wf (toMeta anecdotes)).usage
            (computeTagWeights wf (toMeta anecdotes))).2.2.1
      · rw [if_neg hchain] at hs
        exact assembleState_good wf (toMeta anecdotes) s hs
    · rw [if_neg hcond] at hs
      exact assembleState_good wf (toMeta anecdotes) s hs

/-! ### Connection priority (the rule of §3 of the specification, stated in logic) -/

/-- The spec's first-matching priority for the connection attached to a non-first
beat: shared tag (labelled `#<first shared tag>`), else same narrator, else equal
non-empty location, else chronology labelled `<prevYear> to <nextYear>`. -/
def connPriority (prev next : AnecdoteMeta) (conn : Option StorylineConnection) : Prop :=
  (∀ t ts, sharedTags prev next = t :: ts →
    conn = some { type := .tag, label := "#" ++ t })
  ∧ (sharedTags prev next = [] → prev.storyteller = next.storyteller →
    conn = some { type := .storyteller, label := prev.storyteller })
  ∧ (sharedTags prev next = [] → prev.storyteller ≠ next.storyteller →
    prev.location ≠ "" → prev.location = next.location →
    conn = some { type := .location, label := prev.location })
  ∧ (sharedTags prev next = [] → prev.storyteller ≠ next.storyteller →
    ¬(prev.location ≠ "" ∧ prev.location = next.location) →
    conn = some { type := .chronology
                , label := toString prev.year ++ " to " ++ toString next.year })

theorem buildConnection_priority (p n : AnecdoteMeta) :
    connPriority p n (some (buildConnection p n)) := by
  refine ⟨?_, ?_, ?_, ?_⟩
  · intro t ts hshared
    rw [buildConnection, hshared]
  · intro hshared hst
    rw [buildConnection, hshared]
    dsimp only
    rw [if_pos hst]
  · intro hshared hst hloc hloceq
    rw [buildConnection, hshared]
    dsimp only
    rw [if_neg hst, if_pos ⟨hloc, hloceq⟩]
  · intro hshared hst hnl
    rw [buildConnection, hshared]
    dsimp only
    rw [if_neg hst, if_neg hnl]

/-! ## Claims -/

/-- C1: for every non-empty anecdote list the engine returns a non-empty storyline
list (the fallback `core` recipe fires when every normal recipe's chain is dropped),
every storyline emitted by a normal recipe has at least 3 beats (only the fallback,
recognizable by id `"core"`, may be shorter), and the empty input yields the empty
output rather than an error (the embedding is total, so no failure is even
expressible). -/
theorem claim_C1 (wf : Nat → Nat → ℚ) (anecdotes : List Anecdote) :
    (anecdotes = [] → generateStorylines wf anecdotes = [])
    ∧ (anecdotes ≠ [] →
        generateStorylines wf anecdotes ≠ []
        ∧ ∀ s ∈ generateStorylines wf anecdotes, 3 ≤ s.beats.length ∨ s.id = "core") := by
  constructor
  · rintro rfl
    rw [generateStorylines]
    simp
  · intro hne
    constructor
    · rw [generateStorylines]
      have he : ¬(anecdotes.isEmpty = true) := fun h => hne (List.isEmpty_iff.mp h)
      rw [if_neg he]
      have hitems_ne : toMeta anecdotes ≠ [] := fun h => hne (List.map_eq_nil_iff.mp h)
      by_cases hcond : (assembleState wf (toMeta anecdotes)).storylines.isEmpty
          ∧ ¬(toMeta anecdotes).isEmpty
      · rw [if_pos hcond]
        have hchne : (fallbackResult wf (toMeta anecdotes)).chain ≠ [] := by
          rw [fallbackResult]
          exact buildChain_ne_nil _ _ _ _ _ hitems_ne
        rw [if_pos (fun h => hchne (List.isEmpty_iff.mp h))]
        simp
      · rw [if_neg hcond]
        intro hcontra
        refine hcond ⟨?_, fun h => hitems_ne (List.isEmpty_iff.mp h)⟩
        rw [hcontra]
        rfl
    · intro s hs
      obtain ⟨r, c, d, rfl, _, h3⟩ := generateStorylines_origin wf anecdotes s hs
      cases h3 with
      | inl h => left; rw [buildStoryline_beats_length]; exact h
      | inr h => right; rw [buildStoryline_id]; exact h

/-- C2 (amended): in every emitted storyline the first beat has no breakdown and
every later beat carries one whose `previousAnecdoteId` is the preceding beat's
anecdote id; its `candidateAnecdoteId` equals the beat's own anecdote id whenever the
beat was accepted by maximum score, but when the beat was chosen by the
nearest-chronological fallback the stored breakdown is the one of the best-scoring
rejected candidate — recognizable by its negative total — and its
`candidateAnecdoteId` may name a different anecdote. -/
theorem claim_C2 (wf : Nat → Nat → ℚ) (anecdotes : List Anecdote) (s : Storyline)
    (hs : s ∈ generateStorylines wf anecdotes) :
    (∀ b ∈ s.beats.head?, b.debug = none)
    ∧ List.Chain'
        (fun pb b => ∃ bd, b.debug = some bd ∧ bd.previousAnecdoteId = pb.anecdote.id
          ∧ (bd.candidateAnecdoteId = b.anecdote.id ∨ bd.total < 0))
        s.beats := by
  obtain ⟨r, c, d, rfl, hd, _⟩ := generateStorylines_origin wf anecdotes s hs
  constructor
  · cases c with
    | nil => intro b hb; simp [buildStoryline] at hb
    | cons m rest =>
      intro b hb
      rw [buildStoryline] at hb
      simp only [beatsAux, List.head?_cons, Option.mem_def, Option.some.injEq] at hb
      subst hb
      rfl
  · exact buildStoryline_debug_chain' r c d hd

/-- C4: the engine is a pure function of the ordered anecdote list — two invocations
on equal inputs produce structurally identical storyline arrays.  In the embedding
the engine has no hidden state or randomness, so determinism is definitional. -/
theorem claim_C4 (wf : Nat → Nat → ℚ) (a b : List Anecdote) (h : a = b) :
    generateStorylines wf a = generateStorylines wf b := by rw [h]

/-- C5: the chain builder always terminates (it is a total function here; the loop
consumes one previously unused item id per iteration, witnessed by the no-duplicates
conjunct), the chain never exceeds `max 1 targetLength` items nor the item count, and
the assembler's target length is `min(8, max(4, round(itemCount * 0.45)))`. -/
theorem claim_C5 (items : List AnecdoteMeta) (recipe : StorylineRecipe) (target : Nat)
    (usage : List (String × Nat)) (tagWeights : List (String × ℚ)) :
    (buildChain items recipe target usage tagWeights).chain.length ≤ max 1 target
    ∧ (buildChain items recipe target usage tagWeights).chain.length ≤ items.length
    ∧ ((buildChain items recipe target usage tagWeights).chain.map (fun m => m.id)).Nodup
    ∧ ∀ n : Nat, targetLengthOf n = min 8 (max 4 (jsRound ((n : ℚ) * 0.45)).toNat) := by
  obtain ⟨_, hnd, _, hle1, hle2⟩ := buildChain_ok items recipe target usage tagWeights
  exact ⟨hle1, hle2, hnd, fun n => rfl⟩

/-- C7: in every emitted storyline the first beat's connection is null and every
later beat's connection is non-null and chosen by the first-matching priority:
shared lowercase tag (label `#<first shared tag>`), else same narrator, else equal
non-empty location, else chronology labelled `<prevYear> to <nextYear>`. -/
theorem claim_C7 (wf : Nat → Nat → ℚ) (anecdotes : List Anecdote) (s : Storyline)
    (hs : s ∈ generateStorylines wf anecdotes) :
    (∀ b ∈ s.beats.head?, b.connection = none)
    ∧ List.Chain'
        (fun pb b => b.connection ≠ none ∧ connPriority pb.anecdote b.anecdote b.connection)
        s.beats := by
  obtain ⟨r, c, d, rfl, _, _⟩ := generateStorylines_origin wf anecdotes s hs
  refine ⟨buildStoryline_head_conn r c d, ?_⟩
  refine List.Chain'.imp ?_ (buildStoryline_conn_chain' r c d)
  intro pb b hconn
  refine ⟨by rw [hconn]; exact Option.noConfusion, ?_⟩
  rw [hconn]
  exact buildConnection_priority pb.anecdote b.anecdote

/-! ### Usage-counter frame lemmas -/

theorem usage_fold_increment :
    ∀ (chain : List AnecdoteMeta), (chain.map (fun m => m.id)).Nodup →
      ∀ (u : List (String × Nat)) (x : String),
        usageGet x (chain.foldl (fun u item => alSet item.id (usageGet item.id u + 1) u) u)
          = usageGet x u + (if x ∈ chain.map (fun m => m.id) then 1 else 0) := by
  intro chain
  induction chain with
  | nil => intro _ u x; simp
  | cons m rest ih =>
    intro hnd u x
    rw [List.map_cons, List.nodup_cons] at hnd
    rw [List.foldl_cons, ih hnd.2, usageGet_alSet]
    simp only [List.map_cons, List.mem_cons]
    by_cases hx : m.id = x
    · subst hx
      rw [if_pos rfl, if_neg hnd.1, if_pos (Or.inl rfl)]
    · rw [if_neg hx]
      by_cases hmem : x ∈ rest.map (fun m => m.id)
      · rw [if_pos hmem, if_pos (Or.inr hmem)]
      · rw [if_neg hmem, if_neg (by
          rintro (h | h)
          · exact hx h.symm
          · exact hmem h)]

/-- C8: one step of the assembler either leaves the whole state — storylines, usage
counter and signature set — unchanged (a chain discarded for length < 3 or skipped
for a duplicate signature), or emits exactly one storyline and increments the usage
count of every id in the emitted chain by exactly 1 while leaving every other id's
count unchanged.  The pairwise scorer only reads the counter: in this embedding it is
a pure function of it. -/
theorem claim_C8 (items : List AnecdoteMeta) (tw : List (String × ℚ)) (target : Nat)
    (st : AssemblerState) (recipe : StorylineRecipe) :
    processRecipe items tw target st recipe = st
    ∨ ((processRecipe items tw target st recipe).storylines
          = st.storylines
            ++ [buildStoryline recipe (buildChain items recipe target st.usage tw).chain
                  (buildChain items recipe target st.usage tw).debugByBeat]
        ∧ 3 ≤ (buildChain items recipe target st.usage tw).chain.length
        ∧ ∀ x : String,
            usageGet x (processRecipe items tw target st recipe).usage
              = usageGet x st.usage
                + (if x ∈ (buildChain items recipe target st.usage tw).chain.map (fun m => m.id)
                   then 1 else 0)) := by
  rw [processRecipe]
  by_cases h3 : (buildChain items recipe target st.usage tw).chain.length < 3
  · rw [if_pos h3]
    exact Or.inl rfl
  · rw [if_neg h3]
    dsimp only
    by_cases hsig : st.signatures.contains
        (chainSignature (buildChain items recipe target st.usage tw).chain)
    · rw [if_pos hsig]
      exact Or.inl rfl
    · rw [if_neg hsig]
      refine Or.inr ⟨rfl, by omega, ?_⟩
      intro x
      exact usage_fold_increment (buildChain items recipe target st.usage tw).chain
        (buildChain_ok items recipe target st.usage tw).2.1 st.usage x

/-! ### Two-item runs (fallback correctness) -/

theorem processRecipe_skip (items : List AnecdoteMeta) (tw : List (String × ℚ))
    (target : Nat) (st : AssemblerState) (recipe : StorylineRecipe)
    (h3 : (buildChain items recipe target st.usage tw).chain.length < 3) :
    processRecipe items tw target st recipe = st := by
  rw [processRecipe, if_pos h3]

theorem foldl_processRecipe_skip (items : List AnecdoteMeta) (tw : List (String × ℚ))
    (target : Nat) :
    ∀ (recipes : List StorylineRecipe) (st : AssemblerState),
      (∀ r : StorylineRecipe, (buildChain items r target st.usage tw).chain.length < 3) →
      recipes.foldl (processRecipe items tw target) st = st := by
  intro recipes
  induction recipes with
  | nil => intro st _; rfl
  | cons r rest ih =>
    intro st hall
    rw [List.foldl_cons, processRecipe_skip items tw target st r (hall r)]
    exact ih st hall

theorem targetLengthOf_ge_four (n : Nat) : 4 ≤ targetLengthOf n := by
  rw [targetLengthOf]
  have h1 : 4 ≤ max 4 (jsRound ((n : ℚ) * 0.45)).toNat := le_max_left _ _
  omega

/-- C9: with exactly two distinct-id anecdotes every normal recipe builds a 2-item
chain, which the 3-beat minimum drops, so the engine emits exactly one storyline:
the fallback `core` one, whose two beats carry both anecdotes. -/
theorem claim_C9 (wf : Nat → Nat → ℚ) (a b : Anecdote) (hid : a.id ≠ b.id) :
    (generateStorylines wf [a, b]).length = 1
    ∧ ∀ s ∈ generateStorylines wf [a, b],
        s.id = "core" ∧ s.beats.length = 2
        ∧ (s.beats.map (fun bt => bt.anecdote.id)).Perm [a.id, b.id] := by
  have hitems : toMeta [a, b] = [toMetaOne a, toMetaOne b] := rfl
  have hne : toMeta [a, b] ≠ [] := by rw [hitems]; simp
  have hnd : ((toMeta [a, b]).map (fun m => m.id)).Nodup := by
    rw [hitems]
    simp only [List.map_cons, List.map_nil]
    exact List.nodup_cons.mpr ⟨by simpa using hid, List.nodup_singleton _⟩
  have hlen2 : (toMeta [a, b]).length = 2 := by rw [hitems]; rfl
  have hchain2 : ∀ (r : StorylineRecipe) (t : Nat) (u : List (String × Nat))
      (tw : List (String × ℚ)), 2 ≤ t →
      (buildChain (toMeta [a, b]) r t u tw).chain.length = 2 := by
    intro r t u tw ht
    rw [buildChain_length_eq (toMeta [a, b]) r t u tw hne hnd (by omega), hlen2]
    omega
  have hstate : assembleState wf (toMeta [a, b])
      = { usage := [], storylines := [], signatures := [] } := by
    rw [assembleState]
    apply foldl_processRecipe_skip
    intro r
    rw [hchain2 r _ _ _ (by have := targetLengthOf_ge_four (toMeta [a, b]).length; omega)]
    omega
  have hc2 : (fallbackResult wf (toMeta [a, b])).chain.length = 2 := by
    rw [fallbackResult]
    apply hchain2
    rw [hlen2]
    omega
  have hout : generateStorylines wf [a, b]
      = [buildStoryline (fallbackRecipeOf (getTopTags (toMeta [a, b]) 6))
          (fallbackResult wf (toMeta [a, b])).chain
          (fallbackResult wf (toMeta [a, b])).debugByBeat] := by
    rw [generateStorylines]
    rw [if_neg (by simp : ¬(([a, b] : List Anecdote).isEmpty = true))]
    rw [if_pos ⟨by rw [hstate]; rfl, by rw [hitems]; simp⟩]
    rw [if_pos (fun hemp => by
      rw [List.isEmpty_iff.mp hemp] at hc2
      simp at hc2)]
    rw [hstate]
    rfl
  rw [hout]
  refine ⟨rfl, ?_⟩
  intro s hs
  rw [List.mem_singleton.mp hs]
  set r := fallbackResult wf (toMeta [a, b]) with hr
  have hsub : ∀ m ∈ r.chain, m ∈ toMeta [a, b] :=
    (buildChain_ok (toMeta [a, b]) (fallbackRecipeOf (getTopTags (toMeta [a, b]) 6))
      (min 6 (toMeta [a, b]).length) (assembleState wf (toMeta [a, b])).usage
      (computeTagWeights wf (toMeta [a, b]))).1
  have hcnd : (r.chain.map (fun m => m.id)).Nodup :=
    (buildChain_ok (toMeta [a, b]) (fallbackRecipeOf (getTopTags (toMeta [a, b]) 6))
      (min 6 (toMeta [a, b]).length) (assembleState wf (toMeta [a, b])).usage
      (computeTagWeights wf (toMeta [a, b]))).2.1
  refine ⟨buildStoryline_id _ _ _, by rw [buildStoryline_beats_length, hc2], ?_⟩
  have hmapan : ((buildStoryline (fallbackRecipeOf (getTopTags (toMeta [a, b]) 6)) r.chain
      r.debugByBeat).beats.map (fun bt => bt.anecdote.id)) = r.chain.map (fun m => m.id) := by
    cases hcc : r.chain with
    | nil => rw [hcc] at hc2; simp at hc2
    | cons m rest =>
      rw [buildStoryline]
      have := beatsAux_map_anecdote (fallbackRecipeOf (getTopTags (toMeta [a, b]) 6))
        (m :: rest).length r.debugByBeat (m :: rest) none 0
      calc (beatsAux _ _ _ none 0 (m :: rest)).map (fun bt => bt.anecdote.id)
          = ((beatsAux _ _ _ none 0 (m :: rest)).map (fun bt => bt.anecdote)).map
              (fun an => an.id) := by rw [List.map_map]; rfl
        _ = (m :: rest).map (fun an => an.id) := by rw [this]
  rw [hmapan]
  rcases hcc : r.chain with _ | ⟨x, _ | ⟨y, rest⟩⟩
  · rw [hcc] at hc2; simp at hc2
  · rw [hcc] at hc2; simp at hc2
  · have hrest : rest = [] := by
      rw [hcc] at hc2
      simp only [List.length_cons] at hc2
      exact List.length_eq_zero.mp (by omega)
    subst hrest
    have hx : x ∈ toMeta [a, b] := hsub x (by rw [hcc]; simp)
    have hy : y ∈ toMeta [a, b] := hsub y (by rw [hcc]; simp)
    have hxy : x.id ≠ y.id := by
      rw [hcc] at hcnd
      simp only [List.map_cons, List.map_nil, List.nodup_cons] at hcnd
      intro hcontra
      exact hcnd.1 (by simp [hcontra])
    rw [hitems] at hx hy
    simp only [List.mem_cons, List.mem_singleton, List.not_mem_nil, or_false] at hx hy
    have hma : (toMetaOne a).id = a.id := rfl
    have hmb : (toMetaOne b).id = b.id := rfl
    simp only [List.map_cons, List.map_nil]
    rcases hx with rfl | rfl
    · rcases hy with rfl | rfl
      · exact absurd rfl hxy
      · rw [hma, hmb]
    · rcases hy with rfl | rfl
      · rw [hma, hmb]
        exact List.Perm.swap a.id b.id []
      · exact absurd rfl hxy

/-! ### Pairwise-score component values -/

theorem scoreConnection_fields (p c : AnecdoteMeta) (recipe : StorylineRecipe)
    (usage : List (String × Nat)) (tw : List (String × ℚ)) (k : Nat) :
    (scoreConnection p c recipe usage tw k).sharedTagScore
        = ((sharedTags p c).length : ℚ) * sharedTagW
    ∧ (scoreConnection p c recipe usage tw k).storytellerScore
        = (if p.storyteller = c.storyteller then
            max storytellerMinW (storytellerBaseW - (k : ℚ) * storytellerDecayW)
          else if k ≥ 2 then storytellerVarietyBonusW else 0)
    ∧ (scoreConnection p c recipe usage tw k).chronologyScore
        = (if tsGe c.tsMs p.tsMs then chronologicalForwardW else 0)
    ∧ (scoreConnection p c recipe usage tw k).recencyScore
        = (match timeDiffYears c.tsMs p.tsMs with
          | some d => (if d ≤ 1 then timeWithinYearW else 0)
              + (if d ≤ 3 then timeWithin3YearsW else 0)
          | none => 0) :=
  ⟨rfl, rfl, rfl, rfl⟩

/-- C3 (amended): for two anecdotes with identical tag sets, the same narrator and
dates one day apart, the breakdown the chain builder computes for the later one as
candidate after the earlier one has `sharedTagScore = 2.4·|tags|`,
`chronologyScore = 2.4` and `recencyScore = 1.25 + 0.4 = 1.65` as the spec says, but
the narrator streak the builder passes for the one-beat chain `[p]` is 1 — the
trailing-run count includes the current beat itself, so it is never 0 — and the
narrator-continuity score is therefore `max(0.8, 3 − 1·1.35) = 1.65`, not 3.0. -/
theorem claim_C3 (p c : AnecdoteMeta) (recipe : StorylineRecipe)
    (usage : List (String × Nat)) (tw : List (String × ℚ)) (t : Int)
    (htags : ∀ x, x ∈ p.tagsLower ↔ x ∈ c.tagsLower)
    (hst : p.storyteller = c.storyteller)
    (hp : p.tsMs = some t) (hc : c.tsMs = some (t + 86400000)) :
    storytellerStreakOf [p] p = 1
    ∧ (scoreConnection p c recipe usage tw (storytellerStreakOf [p] p)).sharedTagScore
        = 2.4 * (p.tagsLower.length : ℚ)
    ∧ (scoreConnection p c recipe usage tw (storytellerStreakOf [p] p)).storytellerScore = 1.65
    ∧ (scoreConnection p c recipe usage tw (storytellerStreakOf [p] p)).chronologyScore = 2.4
    ∧ (scoreConnection p c recipe usage tw (storytellerStreakOf [p] p)).recencyScore = 1.65 := by
  have hstreak : storytellerStreakOf [p] p = 1 := by
    rw [storytellerStreakOf]
    simp
  obtain ⟨hf1, hf2, hf3, hf4⟩ := scoreConnection_fields p c recipe usage tw
    (storytellerStreakOf [p] p)
  refine ⟨hstreak, ?_, ?_, ?_, ?_⟩
  · rw [hf1]
    have hshared : sharedTags p c = p.tagsLower := by
      rw [sharedTags]
      apply List.filter_eq_self.mpr
      intro a ha
      exact (contains_eq_true_iff _ _).mpr ((htags a).mp ha)
    rw [hshared, sharedTagW]
    ring
  · rw [hf2, if_pos hst, hstreak]
    have hval : storytellerBaseW - ((1 : Nat) : ℚ) * storytellerDecayW = 1.65 := by
      norm_num [storytellerBaseW, storytellerDecayW]
    rw [hval, max_eq_right (by norm_num [storytellerMinW])]
  · rw [hf3, hc, hp]
    rw [if_pos (by simp [tsGe])]
    rfl
  · rw [hf4, hc, hp]
    have harg : (t + 86400000) - t = (86400000 : Int) := by omega
    simp only [timeDiffYears, harg]
    have : ((86400000 : Int).natAbs : ℚ) / ((YEAR_MS : Int) : ℚ)
        = (86400000 : ℚ) / 31536000000 := by
      norm_num [YEAR_MS]
    rw [this]
    rw [if_pos (by norm_num), if_pos (by norm_num)]
    norm_num [timeWithinYearW, timeWithin3YearsW]

/-! ### C6: the IDF tag-weight table -/

theorem alGet_foldl_bumpCount (t : String) :
    ∀ l : List String, l.Nodup → ∀ acc : List (String × Nat),
    alGet t (l.foldl (fun a tag => bumpCount tag a) acc)
      = if t ∈ l then some ((alGet t acc).getD 0 + 1) else alGet t acc := by
  intro l
  induction l with
  | nil => intro _ acc; simp
  | cons x xs ih =>
    intro hnd acc
    rw [List.nodup_cons] at hnd
    rw [List.foldl_cons]
    by_cases hx : t = x
    · subst hx
      rw [ih hnd.2 (bumpCount t acc), if_neg hnd.1, if_pos (List.mem_cons_self t xs),
        alGet_bumpCount_self]
    · rw [ih hnd.2 (bumpCount x acc), alGet_bumpCount_ne x t hx]
      by_cases hm : t ∈ xs
      · rw [if_pos hm, if_pos (List.mem_cons_of_mem _ hm)]
      · rw [if_neg hm, if_neg (by simp [hx, hm])]

theorem alGet_foldl_docCounts (t : String) :
    ∀ (items : List AnecdoteMeta) (acc : List (String × Nat)),
    alGet t (items.foldl
        (fun acc item => (dedupFirst item.tagsLower).foldl (fun a tag => bumpCount tag a) acc) acc)
      = if (alGet t acc).isSome ∨ 0 < docFrequency t items
        then some ((alGet t acc).getD 0 + docFrequency t items)
        else none := by
  intro items
  induction items with
  | nil =>
    intro acc
    cases h : alGet t acc with
    | none => simp [docFrequency, h]
    | some v => simp [docFrequency, h]
  | cons it items ih =>
    intro acc
    rw [List.foldl_cons, ih]
    have hinner := alGet_foldl_bumpCount t (dedupFirst it.tagsLower) (nodup_dedupFirst _) acc
    have hmem : (t ∈ dedupFirst it.tagsLower) ↔ (it.tagsLower.contains t = true) := by
      rw [mem_dedupFirst]
      exact (contains_eq_true_iff _ _).symm
    by_cases hc : it.tagsLower.contains t = true
    · have hmm : t ∈ it.tagsLower := (contains_eq_true_iff _ _).mp hc
      rw [if_pos (hmem.mpr hc)] at hinner
      rw [hinner]
      have hdf : docFrequency t (it :: items) = docFrequency t items + 1 := by
        simp [docFrequency, List.countP_cons, hmm]
      rw [hdf]
      have c1 : (some ((alGet t acc).getD 0 + 1)).isSome = true ∨ 0 < docFrequency t items :=
        Or.inl rfl
      have c2 : (alGet t acc).isSome = true ∨ 0 < docFrequency t items + 1 :=
        Or.inr (by omega)
      rw [if_pos c1, if_pos c2]
      simp only [Option.getD_some]
      congr 1
      omega
    · have hnm : t ∉ it.tagsLower := fun hm => hc ((contains_eq_true_iff _ _).mpr hm)
      rw [if_neg (fun hm => hc (hmem.mp hm))] at hinner
      rw [hinner]
      have hdf : docFrequency t (it :: items) = docFrequency t items := by
        simp [docFrequency, List.countP_cons, hnm]
      rw [hdf]

theorem alGet_map_snd {α β : Type} (f : α → β) (t : String) :
    ∀ l : List (String × α),
    alGet t (l.map (fun p => (p.1, f p.2))) = (alGet t l).map f := by
  intro l
  induction l with
  | nil => rfl
  | cons p rest ih =>
    obtain ⟨k, v⟩ := p
    simp only [List.map_cons, alGet_cons]
    by_cases h : k = t
    · rw [if_pos h, if_pos h]
      rfl
    · rw [if_neg h, if_neg h, ih]

theorem docFrequency_pos (tag : String) (items : List AnecdoteMeta) :
    0 < docFrequency tag items ↔ ∃ it ∈ items, tag ∈ it.tagsLower := by
  rw [docFrequency, List.countP_pos]
  constructor
  · rintro ⟨it, hm, hc⟩
    exact ⟨it, hm, (contains_eq_true_iff _ _).mp hc⟩
  · rintro ⟨it, hm, hmem⟩
    exact ⟨it, hm, (contains_eq_true_iff _ _).mpr hmem⟩

theorem docFrequency_le_max (tag : String) (items : List AnecdoteMeta) :
    docFrequency tag items ≤ max 1 items.length :=
  le_trans (List.countP_le_length _) (le_max_right 1 items.length)

theorem toFixed3_mono {x y : ℝ} (h : x ≤ y) : toFixed3 x ≤ toFixed3 y := by
  rw [toFixed3, toFixed3]
  have hf : (⌊x * 1000 + 1 / 2⌋ : ℤ) ≤ ⌊y * 1000 + 1 / 2⌋ := by
    apply Int.floor_le_floor
    nlinarith
  have h2 : ((⌊x * 1000 + 1 / 2⌋ : ℤ) : ℝ) ≤ ((⌊y * 1000 + 1 / 2⌋ : ℤ) : ℝ) := by
    exact_mod_cast hf
  linarith

theorem one_le_toFixed3 {x : ℝ} (h : 1 ≤ x) : 1 ≤ toFixed3 x := by
  rw [toFixed3]
  have hf : (1000 : ℤ) ≤ ⌊x * 1000 + 1 / 2⌋ := by
    apply Int.le_floor.mpr
    push_cast
    nlinarith
  have h2 : (1000 : ℝ) ≤ ((⌊x * 1000 + 1 / 2⌋ : ℤ) : ℝ) := by exact_mod_cast hf
  linarith

theorem one_le_idfWeight {N d : Nat} (h : d ≤ N) : 1 ≤ idfWeight N d := by
  rw [idfWeight]
  apply one_le_toFixed3
  have hcast : (d : ℝ) ≤ (N : ℝ) := Nat.cast_le.mpr h
  have hlog : 0 ≤ Real.log (((N : ℝ) + 1) / ((d : ℝ) + 1)) := by
    apply Real.log_nonneg
    rw [le_div_iff (by positivity)]
    linarith
  linarith

theorem idfWeight_antitone {N d1 d2 : Nat} (h : d1 ≤ d2) : idfWeight N d2 ≤ idfWeight N d1 := by
  rw [idfWeight, idfWeight]
  apply toFixed3_mono
  have hcast : (d1 : ℝ) ≤ (d2 : ℝ) := Nat.cast_le.mpr h
  have harg : ((N : ℝ) + 1) / ((d2 : ℝ) + 1) ≤ ((N : ℝ) + 1) / ((d1 : ℝ) + 1) := by
    gcongr
  have hlog := Real.log_le_log (by positivity) harg
  linarith

/-- C6: the tag-weight table maps exactly the tags occurring in at least one item;
an occurring tag's weight is `toFixed3 (ln((N+1)/(df+1)) + 1)` with `N = max 1
itemCount` and `df` its document frequency; every such weight is ≥ 1; the weight is
non-increasing in the document frequency; and a tag absent from a weight table
contributes `1` when looked up during theme scoring. -/
theorem claim_C6 (items : List AnecdoteMeta) (tag : String) (N d1 d2 : Nat)
    (tw : List (String × ℚ))
    (hocc : 0 < docFrequency tag items)
    (hd : d1 ≤ d2)
    (habs : alGet tag tw = none) :
    (0 < docFrequency tag items ↔ ∃ it ∈ items, tag ∈ it.tagsLower)
    ∧ alGet tag (computeTagWeights idfWeight items)
        = some (idfWeight (max 1 items.length) (docFrequency tag items))
    ∧ 1 ≤ idfWeight (max 1 items.length) (docFrequency tag items)
    ∧ idfWeight N d2 ≤ idfWeight N d1
    ∧ lookupWeight tw tag = 1 := by
  refine ⟨docFrequency_pos tag items, ?_,
    one_le_idfWeight (docFrequency_le_max tag items), idfWeight_antitone hd, ?_⟩
  · show alGet tag
        ((items.foldl
          (fun acc item => (dedupFirst item.tagsLower).foldl (fun a tag => bumpCount tag a) acc)
          []).map (fun p => (p.1, idfWeight (max 1 items.length) p.2)))
      = some (idfWeight (max 1 items.length) (docFrequency tag items))
    rw [alGet_map_snd (idfWeight (max 1 items.length)) tag, alGet_foldl_docCounts]
    have hnil : alGet tag ([] : List (String × Nat)) = none := rfl
    rw [if_pos (Or.inr hocc)]
    simp [hnil]
  · rw [lookupWeight, habs]

/-! ### C10: signature-join injectivity for separator-free ids -/

theorem sepSplit_inj (sep : Char) :
    ∀ x y s1 s2 : List Char, sep ∉ x → sep ∉ y →
    (s1 = [] ∨ ∃ t, s1 = sep :: t) → (s2 = [] ∨ ∃ t, s2 = sep :: t) →
    x ++ s1 = y ++ s2 → x = y ∧ s1 = s2 := by
  intro x
  induction x with
  | nil =>
    intro y s1 s2 _ hy hs1 _ heq
    simp only [List.nil_append] at heq
    cases y with
    | nil =>
      simp only [List.nil_append] at heq
      exact ⟨rfl, heq⟩
    | cons b y2 =>
      exfalso
      rcases hs1 with rfl | ⟨t, rfl⟩
      · simp at heq
      · simp only [List.cons_append, List.cons.injEq] at heq
        exact hy (by rw [heq.1]; exact List.mem_cons_self b y2)
  | cons a x2 ih =>
    intro y s1 s2 hx hy hs1 hs2 heq
    cases y with
    | nil =>
      simp only [List.nil_append, List.cons_append] at heq
      exfalso
      rcases hs2 with rfl | ⟨t, rfl⟩
      · exact (List.cons_ne_nil _ _) heq
      · simp only [List.cons.injEq] at heq
        exact hx (by rw [← heq.1]; exact List.mem_cons_self a x2)
    | cons b y2 =>
      simp only [List.cons_append, List.cons.injEq] at heq
      obtain ⟨rfl, heq2⟩ := heq
      have hx2 : sep ∉ x2 := fun h => hx (List.mem_cons_of_mem _ h)
      have hy2 : sep ∉ y2 := fun h => hy (List.mem_cons_of_mem _ h)
      obtain ⟨h1, h2⟩ := ih y2 s1 s2 hx2 hy2 hs1 hs2 heq2
      exact ⟨by rw [h1], h2⟩

theorem joinSepChar_inj (sep : Char) :
    ∀ l1 l2 : List (List Char),
    (∀ x ∈ l1, x ≠ [] ∧ sep ∉ x) → (∀ x ∈ l2, x ≠ [] ∧ sep ∉ x) →
    joinSepChar sep l1 = joinSepChar sep l2 → l1 = l2 := by
  intro l1
  induction l1 with
  | nil =>
    intro l2 _ h2 heq
    cases l2 with
    | nil => rfl
    | cons y ys =>
      exfalso
      cases ys with
      | nil => exact (h2 y (List.mem_cons_self y [])).1 (heq.symm : y = [])
      | cons y2 ys2 =>
        have h3 : ([] : List Char) = y ++ sep :: joinSepChar sep (y2 :: ys2) := heq
        have h4 := h3.symm
        rw [List.append_eq_nil] at h4
        exact List.cons_ne_nil _ _ h4.2
  | cons x xs ih =>
    intro l2 h1 h2 heq
    have hx := h1 x (List.mem_cons_self x xs)
    cases l2 with
    | nil =>
      exfalso
      cases xs with
      | nil => exact hx.1 (heq : x = [])
      | cons x2 xs2 =>
        have h3 : x ++ sep :: joinSepChar sep (x2 :: xs2) = ([] : List Char) := heq
        rw [List.append_eq_nil] at h3
        exact List.cons_ne_nil _ _ h3.2
    | cons y ys =>
      have hy := h2 y (List.mem_cons_self y ys)
      cases xs with
      | nil =>
        cases ys with
        | nil =>
          have h9 : x = y := heq
          rw [h9]
        | cons y2 ys2 =>
          exfalso
          have heq2 : x ++ ([] : List Char)
              = y ++ sep :: joinSepChar sep (y2 :: ys2) := by
            rw [List.append_nil]
            exact heq
          obtain ⟨-, hs⟩ := sepSplit_inj sep x y [] (sep :: joinSepChar sep (y2 :: ys2))
            hx.2 hy.2 (Or.inl rfl) (Or.inr ⟨_, rfl⟩) heq2
          exact List.cons_ne_nil _ _ hs.symm
      | cons x2 xs2 =>
        cases ys with
        | nil =>
          exfalso
          have heq2 : x ++ sep :: joinSepChar sep (x2 :: xs2)
              = y ++ ([] : List Char) := by
            rw [List.append_nil]
            exact heq
          obtain ⟨-, hs⟩ := sepSplit_inj sep x y (sep :: joinSepChar sep (x2 :: xs2)) []
            hx.2 hy.2 (Or.inr ⟨_, rfl⟩) (Or.inl rfl) heq2
          exact List.cons_ne_nil _ _ hs
        | cons y2 ys2 =>
          have heq2 : x ++ sep :: joinSepChar sep (x2 :: xs2)
              = y ++ sep :: joinSepChar sep (y2 :: ys2) := heq
          obtain ⟨hxy, hs⟩ := sepSplit_inj sep x y _ _ hx.2 hy.2
            (Or.inr ⟨_, rfl⟩) (Or.inr ⟨_, rfl⟩) heq2
          simp only [List.cons.injEq, true_and] at hs
          have htail := ih (y2 :: ys2)
            (fun z hz => h1 z (List.mem_cons_of_mem _ hz))
            (fun z hz => h2 z (List.mem_cons_of_mem _ hz)) hs
          rw [hxy, htail]

theorem data_jsJoin_dash :
    ∀ l : List String, (jsJoin "-" l).data = joinSepChar (Char.ofNat 45) (l.map String.data) := by
  intro l
  induction l with
  | nil => rfl
  | cons x xs ih =>
    cases xs with
    | nil => rfl
    | cons y ys =>
      show (x ++ "-" ++ jsJoin "-" (y :: ys)).data
        = x.data ++ Char.ofNat 45 :: joinSepChar (Char.ofNat 45) ((y :: ys).map String.data)
      have happ : ∀ s t : String, (s ++ t).data = s.data ++ t.data := fun s t => rfl
      rw [happ, happ, ih]
      have hd : ("-" : String).data = [Char.ofNat 45] := rfl
      rw [hd]
      simp [List.append_assoc]

/-- C10 (amended): signatures separate chains as long as every anecdote id is
non-empty and free of the separator character `-`; the claim as stated — for all id
alphabets, in particular ids containing `-` — is refuted by
`claim_C10_counterexample`. -/
theorem claim_C10 (c1 c2 : List AnecdoteMeta)
    (h1 : ∀ m ∈ c1, m.id ≠ "" ∧ Char.ofNat 45 ∉ m.id.data)
    (h2 : ∀ m ∈ c2, m.id ≠ "" ∧ Char.ofNat 45 ∉ m.id.data)
    (hne : c1.map (fun m => m.id) ≠ c2.map (fun m => m.id)) :
    chainSignature c1 ≠ chainSignature c2 := by
  intro heq
  apply hne
  have hdata := congrArg String.data heq
  rw [chainSignature, chainSignature, data_jsJoin_dash, data_jsJoin_dash] at hdata
  have hcond : ∀ c : List AnecdoteMeta,
      (∀ m ∈ c, m.id ≠ "" ∧ Char.ofNat 45 ∉ m.id.data) →
      ∀ x ∈ (c.map fun m => m.id).map String.data, x ≠ [] ∧ Char.ofNat 45 ∉ x := by
    intro c hc x hx
    rw [List.map_map] at hx
    obtain ⟨m, hm, rfl⟩ := List.mem_map.mp hx
    exact ⟨fun hnil => (hc m hm).1 (String.ext hnil), (hc m hm).2⟩
  have hmaps := joinSepChar_inj (Char.ofNat 45) _ _ (hcond c1 h1) (hcond c2 h2) hdata
  have hinj : Function.Injective (List.map String.data) :=
    List.map_injective_iff.mpr (fun a b hab => String.ext hab)
  exact hinj hmaps

/-! ## Concrete instances: counterexamples and witnesses -/

section ConcreteChecks

attribute [local semireducible] Rat.add Rat.mul Rat.sub Rat.inv Rat.ofScientific

set_option maxRecDepth 100000

/-- C2 is refuted as frozen: on `c2inp` the chronicle storyline's beat at index 2
(anecdote `r`) carries the stale breakdown of a previously scored candidate — its
`candidateAnecdoteId` is `s`, not `r` — because the nearest-chronological fallback
path reuses the loop's last `bestBreakdown` instead of a breakdown for the accepted
edge. -/
theorem claim_C2_counterexample :
    ∃ (wf : Nat → Nat → ℚ) (anecdotes : List Anecdote) (s : Storyline)
      (bd : StorylineScoreBreakdown),
      s ∈ generateStorylines wf anecdotes
      ∧ (s.beats.getD 2 emptyBeat).debug = some bd
      ∧ bd.candidateAnecdoteId ≠ (s.beats.getD 2 emptyBeat).anecdote.id :=
  ⟨wfOne, c2inp, sC2, (sC2.beats.getD 2 emptyBeat).debug.getD emptyBreakdown,
    by decide, by decide, by decide⟩

/-- C3 is refuted as frozen: for the one-beat chain `[p]` the streak is 1, so the
narrator-continuity score of the scored edge is `1.65`, never `3.0`. -/
theorem claim_C3_counterexample :
    ∃ (p c : AnecdoteMeta) (recipe : StorylineRecipe) (usage : List (String × Nat))
      (tw : List (String × ℚ)) (t : Int),
      (∀ x, x ∈ p.tagsLower ↔ x ∈ c.tagsLower)
      ∧ p.storyteller = c.storyteller
      ∧ p.tsMs = some t ∧ c.tsMs = some (t + 86400000)
      ∧ (scoreConnection p c recipe usage tw (storytellerStreakOf [p] p)).storytellerScore
          ≠ 3 :=
  ⟨mC3p, mC3c, rFix, [], [], 1273017600000, fun x => Iff.rfl, rfl, rfl, rfl, by decide⟩

/-- C10 is refuted as frozen: two chains with different ordered id sequences whose
ids contain `-` can share one signature string. -/
theorem claim_C10_counterexample :
    ∃ c1 c2 : List AnecdoteMeta,
      c1.map (fun m => m.id) ≠ c2.map (fun m => m.id)
      ∧ chainSignature c1 = chainSignature c2 :=
  ⟨[mkMeta "a-b", mkMeta "c"], [mkMeta "a", mkMeta "b-c"], by decide, by decide⟩

theorem claim_C1_witness :
    generateStorylines wfOne [] = []
    ∧ ([aC9a, aC9b] : List Anecdote) ≠ []
    ∧ generateStorylines wfOne [aC9a, aC9b] ≠ []
    ∧ ∀ s ∈ generateStorylines wfOne [aC9a, aC9b], 3 ≤ s.beats.length ∨ s.id = "core" :=
  ⟨(claim_C1 wfOne []).1 rfl, List.cons_ne_nil aC9a [aC9b],
    ((claim_C1 wfOne [aC9a, aC9b]).2 (List.cons_ne_nil aC9a [aC9b])).1,
    ((claim_C1 wfOne [aC9a, aC9b]).2 (List.cons_ne_nil aC9a [aC9b])).2⟩

theorem claim_C2_witness :
    sC2 ∈ generateStorylines wfOne c2inp
    ∧ ((∀ b ∈ sC2.beats.head?, b.debug = none)
      ∧ List.Chain'
          (fun pb b => ∃ bd, b.debug = some bd
            ∧ bd.previousAnecdoteId = pb.anecdote.id
            ∧ (bd.candidateAnecdoteId = b.anecdote.id ∨ bd.total < 0))
          sC2.beats) :=
  ⟨by decide, claim_C2 wfOne c2inp sC2 (by decide)⟩

theorem claim_C3_witness :
    (∀ x, x ∈ mC3p.tagsLower ↔ x ∈ mC3c.tagsLower)
    ∧ mC3p.storyteller = mC3c.storyteller
    ∧ mC3p.tsMs = some 1273017600000
    ∧ mC3c.tsMs = some (1273017600000 + 86400000)
    ∧ (storytellerStreakOf [mC3p] mC3p = 1
      ∧ (scoreConnection mC3p mC3c rFix [] [] (storytellerStreakOf [mC3p] mC3p)).sharedTagScore
          = 2.4 * (mC3p.tagsLower.length : ℚ)
      ∧ (scoreConnection mC3p mC3c rFix [] [] (storytellerStreakOf [mC3p] mC3p)).storytellerScore
          = 1.65
      ∧ (scoreConnection mC3p mC3c rFix [] [] (storytellerStreakOf [mC3p] mC3p)).chronologyScore
          = 2.4
      ∧ (scoreConnection mC3p mC3c rFix [] [] (storytellerStreakOf [mC3p] mC3p)).recencyScore
          = 1.65) :=
  ⟨fun x => Iff.rfl, rfl, rfl, rfl,
    claim_C3 mC3p mC3c rFix [] [] 1273017600000 (fun x => Iff.rfl) rfl rfl rfl⟩

theorem claim_C4_witness :
    generateStorylines wfOne [aC9a] = generateStorylines wfOne [aC9a] :=
  claim_C4 wfOne [aC9a] [aC9a] rfl

theorem claim_C6_witness :
    0 < docFrequency "x" [mC6a, mC6b]
    ∧ (1 : Nat) ≤ 2
    ∧ alGet "x" ([] : List (String × ℚ)) = none
    ∧ ((0 < docFrequency "x" [mC6a, mC6b] ↔ ∃ it ∈ [mC6a, mC6b], "x" ∈ it.tagsLower)
      ∧ alGet "x" (computeTagWeights idfWeight [mC6a, mC6b])
          = some (idfWeight (max 1 ([mC6a, mC6b] : List AnecdoteMeta).length)
              (docFrequency "x" [mC6a, mC6b]))
      ∧ 1 ≤ idfWeight (max 1 ([mC6a, mC6b] : List AnecdoteMeta).length)
            (docFrequency "x" [mC6a, mC6b])
      ∧ idfWeight 5 2 ≤ idfWeight 5 1
      ∧ lookupWeight [] "x" = 1) :=
  ⟨by decide, by decide, rfl, claim_C6 [mC6a, mC6b] "x" 5 1 2 [] (by decide) (by decide) rfl⟩

theorem claim_C7_witness :
    sC2 ∈ generateStorylines wfOne c2inp
    ∧ ((∀ b ∈ sC2.beats.head?, b.connection = none)
      ∧ List.Chain'
          (fun pb b => b.connection ≠ none ∧ connPriority pb.anecdote b.anecdote b.connection)
          sC2.beats) :=
  ⟨by decide, claim_C7 wfOne c2inp sC2 (by decide)⟩

theorem claim_C9_witness :
    aC9a.id ≠ aC9b.id
    ∧ ((generateStorylines wfOne [aC9a, aC9b]).length = 1
      ∧ ∀ s ∈ generateStorylines wfOne [aC9a, aC9b],
          s.id = "core" ∧ s.beats.length = 2
          ∧ (s.beats.map (fun bt => bt.anecdote.id)).Perm [aC9a.id, aC9b.id]) :=
  ⟨by decide, claim_C9 wfOne aC9a aC9b (by decide)⟩

theorem claim_C10_witness :
    (∀ m ∈ [mkMeta "u"], m.id ≠ "" ∧ Char.ofNat 45 ∉ m.id.data)
    ∧ (∀ m ∈ [mkMeta "v"], m.id ≠ "" ∧ Char.ofNat 45 ∉ m.id.data)
    ∧ ([mkMeta "u"].map (fun m => m.id) ≠ [mkMeta "v"].map (fun m => m.id))
    ∧ chainSignature [mkMeta "u"] ≠ chainSignature [mkMeta "v"] :=
  ⟨by decide, by decide, by decide,
    claim_C10 [mkMeta "u"] [mkMeta "v"] (by decide) (by decide) (by decide)⟩

end ConcreteChecks

end DocuMaker
